import Mathlib

/-!
Verification of the tenhou-log-parser core (tile codec, round state machine,
document assembly) against its specification.

The embedding works at the tag-stream level: the XML reader (an external
collaborator in the spec) is modelled as already having produced a list of
tags, each a name together with an ordered attribute list of raw key/value
strings.  The UUID generator used for the document's game id is modelled as
an explicit input string, since it is the single nondeterministic input of
the parser.  All functions are translated from `src/tile.rs`, `src/parser.rs`,
`src/models.rs` and `src/error.rs`.
-/

deriving instance DecidableEq for Except

namespace TenhouLog

/-- Model of `ParserError` from `src/error.rs`.  Payloads of errors produced
by external libraries (`std::io`, `quick_xml`, `Utf8Error`, `ParseIntError`)
are abstracted away; the variants produced directly by the repository's code
keep their message strings. -/
inductive ParserError : Type where
  | io : ParserError
  | xml : ParserError
  | utf8 : ParserError
  | parseInt : ParserError
  | attr : String → ParserError
  | encoding : String → ParserError
  | schema : String → ParserError
  | parse : String → String → ParserError
  | invalidTileId : Nat → ParserError
  | invalidFormat : String → ParserError
deriving Repr, DecidableEq

/-- Numeric value of a list of decimal digit characters; `none` when the list
is empty or contains a non-digit.  Helper for the `str::parse` models. -/
def digitsToNat? (cs : List Char) : Option Nat :=
  if cs.isEmpty then none
  else if cs.all Char.isDigit then
    some (cs.foldl (fun n c => n * 10 + (c.toNat - 48)) 0)
  else none

/-- Strip one optional leading '+' sign, as `u32: FromStr` accepts. -/
def stripPlusSign (cs : List Char) : List Char :=
  match cs with
  | '+' :: rest => rest
  | _ => cs

/-- Model of Rust `str::parse::<u32>()`: optional '+', one or more decimal
digits, value below 2^32; `none` models `ParseIntError`. -/
def parseU32 (s : String) : Option Nat :=
  match digitsToNat? (stripPlusSign s.data) with
  | some n => if n < 2 ^ 32 then some n else none
  | none => none

/-- Model of Rust `str::parse::<u8>()`. -/
def parseU8 (s : String) : Option Nat :=
  match digitsToNat? (stripPlusSign s.data) with
  | some n => if n < 2 ^ 8 then some n else none
  | none => none

/-- Model of Rust `str::parse::<i32>()`: optional '+' or '-', decimal digits,
value within the i32 range. -/
def parseI32 (s : String) : Option Int :=
  match s.data with
  | '-' :: rest =>
    match digitsToNat? rest with
    | some n => if n ≤ 2 ^ 31 then some (-(n : Int)) else none
    | none => none
  | cs =>
    match digitsToNat? (stripPlusSign cs) with
    | some n => if n < 2 ^ 31 then some (n : Int) else none
    | none => none

/-- Model of Rust `char::to_digit(10)`. -/
def charToDigit10? (c : Char) : Option Nat :=
  if c.isDigit then some (c.toNat - 48) else none

/-- UTF-8 byte length of one character, to model Rust `str::len` (which counts
bytes, not characters). -/
def charUtf8Len (c : Char) : Nat :=
  if c.toNat < 0x80 then 1
  else if c.toNat < 0x800 then 2
  else if c.toNat < 0x10000 then 3
  else 4

/-- Byte length of a string, as Rust `str::len` reports it. -/
def strByteLen (s : String) : Nat :=
  (s.data.map charUtf8Len).sum

/-- Model of Rust `str::ends_with(c: char)`. -/
def strEndsWith (s : String) (c : Char) : Bool :=
  s.data.getLast? = some c

/-- Tail-building worker for `splitComma`. -/
def splitCommaAux : List Char → List Char → List String
  | [], acc => [String.mk acc.reverse]
  | c :: rest, acc =>
    if c = ',' then String.mk acc.reverse :: splitCommaAux rest []
    else splitCommaAux rest (c :: acc)

/-- Model of Rust `str::split(',').collect()`: the empty string yields `[""]`,
and separators at the ends yield empty fields. -/
def splitComma (s : String) : List String :=
  splitCommaAux s.data []

/-! ## Tile codec (`src/tile.rs`) -/

/-- Body of `tile_id_to_string`, the source's `tile_type` binding taken as a
parameter. -/
def tileNameOfType (tile_type : Nat) (id : Nat) : String :=
  if tile_type ≤ 8 then toString (tile_type + 1) ++ "m"
  else if tile_type ≤ 17 then toString (tile_type - 8) ++ "p"
  else if tile_type ≤ 26 then toString (tile_type - 17) ++ "s"
  else if tile_type = 27 then "east"
  else if tile_type = 28 then "south"
  else if tile_type = 29 then "west"
  else if tile_type = 30 then "north"
  else if tile_type = 31 then "white"
  else if tile_type = 32 then "green"
  else if tile_type = 33 then "red"
  else "unknown_" ++ toString id

/-- `tile_id_to_string` from `src/tile.rs` lines 27-42: convert a tile id to
its canonical name; ids whose kind `id / 4` falls outside 0..33 produce the
fallback string `unknown_<id>`. -/
def tile_id_to_string (id : Nat) : String :=
  tileNameOfType (id / 4) id

/-- Helper shared by the three suited arms of `tile_string_to_id`: first
character as a decimal digit, checked to lie in 1..9, shifted by `base`.
`errName` is the suit name used in the error message. -/
def suitedTileType (tile : String) (base : Nat) (errName : String) :
    Except ParserError Nat :=
  match tile.data.head? with
  | none => .error (.invalidFormat ("Invalid " ++ errName ++ " tile: " ++ tile))
  | some c =>
    match charToDigit10? c with
    | none => .error (.invalidFormat ("Invalid " ++ errName ++ " tile: " ++ tile))
    | some num =>
      if 1 ≤ num ∧ num ≤ 9 then .ok (num - 1 + base)
      else .error (.invalidFormat ("Invalid " ++ errName ++ " tile: " ++ tile))

/-- `tile_string_to_id` from `src/tile.rs` lines 53-111: canonical tile name
back to an id, always the first of the four physical copies (`kind * 4`).
The suited arms require byte length exactly 2, as the Rust `s.len()` check
does. -/
def tile_string_to_id (tile : String) : Except ParserError Nat := do
  let tile_type ←
    if strEndsWith tile 'm' && strByteLen tile == 2 then
      suitedTileType tile 0 "man"
    else if strEndsWith tile 'p' && strByteLen tile == 2 then
      suitedTileType tile 9 "pin"
    else if strEndsWith tile 's' && strByteLen tile == 2 then
      suitedTileType tile 18 "sou"
    else if tile = "east" then .ok 27
    else if tile = "south" then .ok 28
    else if tile = "west" then .ok 29
    else if tile = "north" then .ok 30
    else if tile = "white" then .ok 31
    else if tile = "green" then .ok 32
    else if tile = "red" then .ok 33
    else .error (.invalidFormat ("Unknown tile: " ++ tile))
  return tile_type * 4

/-- The `.map(..).collect::<Result<Vec<_>>>()` body of `parse_tile_list`:
decode each token, aborting at the first token that fails the `u32` parse. -/
def collectTiles : List String → Except ParserError (List String)
  | [] => .ok []
  | s :: rest =>
    match parseU32 s with
    | none => .error (.invalidFormat ("Invalid tile ID: " ++ s))
    | some id =>
      match collectTiles rest with
      | .ok tl => .ok (tile_id_to_string id :: tl)
      | .error e => .error e

/-- `parse_tile_list` from `src/tile.rs` lines 132-146: comma-separated raw
ids to tile names; empty input is the empty list; any token that fails the
`u32` parse aborts the whole list with an invalid-format error. -/
def parse_tile_list (tiles : String) : Except ParserError (List String) :=
  if tiles = "" then .ok []
  else collectTiles (splitComma tiles)

/-! ## Data model (`src/models.rs`) -/

/-- `Rules` from `src/models.rs`. -/
structure Rules where
  type_flags : Nat
  lobby_id : Option Nat
deriving Repr, DecidableEq

/-- `Player` from `src/models.rs`. -/
structure Player where
  seat : Nat
  player_id : String
  rank : Nat
  rate : Nat
  gender : String
deriving Repr, DecidableEq

/-- `Yaku` from `src/models.rs`. -/
structure Yaku where
  name : String
  value : Nat
deriving Repr, DecidableEq

/-- `KanType` from `src/models.rs`. -/
inductive KanType : Type where
  | ankan : KanType
  | minkan : KanType
  | kakan : KanType
deriving Repr, DecidableEq

/-- `RyuukyokuReason` from `src/models.rs`. -/
inductive RyuukyokuReason : Type where
  | normal : RyuukyokuReason
  | yao9 : RyuukyokuReason
  | kaze4 : RyuukyokuReason
  | reach4 : RyuukyokuReason
  | ron3 : RyuukyokuReason
  | kan4 : RyuukyokuReason
deriving Repr, DecidableEq

/-- `Event` from `src/models.rs`.  The Rust field `from` is rendered
`from_seat` because `from` is reserved in Lean.  Fixed-size arrays
(`[String; 3]`, `[i32; 4]`) are rendered as lists. -/
inductive Event : Type where
  | draw (seat : Nat) (tile : String)
  | discard (seat : Nat) (tile : String) (is_riichi : Bool)
  | chi (who : Nat) (tiles : List String) (from_seat : Nat)
  | pon (who : Nat) (tiles : List String) (from_seat : Nat)
  | kan (who : Nat) (tiles : List String) (kan_type : KanType) (from_seat : Option Nat)
  | dora (indicator : String)
  | reach (who : Nat) (step : Nat) (scores : List Int)
  | agari (who : Nat) (from_seat : Nat) (han : Nat) (fu : Nat)
      (yakus : List Yaku) (dora_count : Nat) (scores : List Int)
  | ryuukyoku (reason : RyuukyokuReason) (scores : List Int)
deriving Repr, DecidableEq

/-- `Init` from `src/models.rs`. -/
structure Init where
  round_number : Nat
  honba : Nat
  kyoutaku : Nat
  dice : Nat × Nat
  dora_indicator : Nat
  initial_scores : List Int
  initial_hands : List (List String)
deriving Repr, DecidableEq

/-- `Round` from `src/models.rs`. -/
structure Round where
  round_id : String
  dealer_seat : Nat
  init : Init
  events : List Event
deriving Repr, DecidableEq

/-- `ParserOutput` from `src/models.rs`. -/
structure ParserOutput where
  mjlog_version : String
  game_id : String
  rules : Rules
  players : List Player
  rounds : List Round
deriving Repr, DecidableEq

/-! ## Percent decoding (`percent_decode` helper in `src/parser.rs`)

The Rust helper calls the external `percent_encoding` crate followed by a
lossy UTF-8 decode; both are modelled here at the byte level. -/

/-- Hexadecimal value of an ASCII byte, if it is a hex digit. -/
def hexDigitVal? (b : Nat) : Option Nat :=
  if 48 ≤ b ∧ b ≤ 57 then some (b - 48)
  else if 97 ≤ b ∧ b ≤ 102 then some (b - 87)
  else if 65 ≤ b ∧ b ≤ 70 then some (b - 55)
  else none

/-- UTF-8 bytes of one character. -/
def charUtf8Bytes (c : Char) : List Nat :=
  let n := c.toNat
  if n < 0x80 then [n]
  else if n < 0x800 then [0xC0 + n / 64, 0x80 + n % 64]
  else if n < 0x10000 then
    [0xE0 + n / 4096, 0x80 + (n / 64) % 64, 0x80 + n % 64]
  else
    [0xF0 + n / 262144, 0x80 + (n / 4096) % 64, 0x80 + (n / 64) % 64, 0x80 + n % 64]

/-- UTF-8 byte sequence of a string. -/
def strUtf8Bytes (s : String) : List Nat :=
  (s.data.map charUtf8Bytes).flatten

/-- Model of `percent_encoding::percent_decode_str`: replace each valid
`%XX` triple by the byte it denotes; leave everything else untouched. -/
def percentDecodeBytes : List Nat → List Nat
  | [] => []
  | 37 :: h1 :: h2 :: rest =>
    match hexDigitVal? h1, hexDigitVal? h2 with
    | some v1, some v2 => (16 * v1 + v2) :: percentDecodeBytes rest
    | _, _ => 37 :: percentDecodeBytes (h1 :: h2 :: rest)
  | b :: rest => b :: percentDecodeBytes rest

/-- Is `b` a UTF-8 continuation byte? -/
def isUtf8Cont (b : Nat) : Bool :=
  0x80 ≤ b && b < 0xC0

/-- Model of a lossy UTF-8 decode (`decode_utf8_lossy`): well-formed
sequences decode to their scalar value, anything malformed becomes U+FFFD
and decoding continues after the offending lead byte.  The fuel argument is
always instantiated with the byte count, so the `0` arm is unreachable; it
only makes the recursion structural. -/
def utf8LossyFuel : Nat → List Nat → List Char
  | 0, _ => []
  | _, [] => []
  | fuel + 1, b :: rest =>
    if b < 0x80 then Char.ofNat b :: utf8LossyFuel fuel rest
    else if b < 0xC2 then '�' :: utf8LossyFuel fuel rest
    else if b < 0xE0 then
      match rest with
      | b2 :: rest2 =>
        if isUtf8Cont b2 then
          Char.ofNat ((b - 0xC0) * 64 + (b2 - 0x80)) :: utf8LossyFuel fuel rest2
        else '�' :: utf8LossyFuel fuel rest
      | [] => ['�']
    else if b < 0xF0 then
      match rest with
      | b2 :: b3 :: rest3 =>
        let v := (b - 0xE0) * 4096 + (b2 - 0x80) * 64 + (b3 - 0x80)
        if isUtf8Cont b2 && isUtf8Cont b3 && 0x800 ≤ v && (v < 0xD800 || 0xE000 ≤ v) then
          Char.ofNat v :: utf8LossyFuel fuel rest3
        else '�' :: utf8LossyFuel fuel rest
      | _ => ['�']
    else if b < 0xF5 then
      match rest with
      | b2 :: b3 :: b4 :: rest4 =>
        let v := (b - 0xF0) * 262144 + (b2 - 0x80) * 4096 + (b3 - 0x80) * 64 + (b4 - 0x80)
        if isUtf8Cont b2 && isUtf8Cont b3 && isUtf8Cont b4 && 0x10000 ≤ v && v < 0x110000 then
          Char.ofNat v :: utf8LossyFuel fuel rest4
        else '�' :: utf8LossyFuel fuel rest
      | _ => ['�']
    else '�' :: utf8LossyFuel fuel rest

/-- `percent_decode` from `src/parser.rs` lines 625-629. -/
def percent_decode (input : String) : String :=
  let bytes := percentDecodeBytes (strUtf8Bytes input)
  String.mk (utf8LossyFuel bytes.length bytes)

/-! ## Parser state machine (`src/parser.rs`)

The XML reader (`quick_xml`) is an external collaborator; its output is
modelled as a list of tags, each carrying the tag name and the ordered
attribute list.  Attribute keys and values are already text (the
`str::from_utf8` steps of the source cannot fail on this representation).
The UUID generator used by `MjlogParser::new` is modelled as an explicit
input string. -/

/-- A start or self-closing tag as produced by the tag event reader. -/
structure Tag where
  name : String
  attrs : List (String × String)
deriving Repr, DecidableEq

/-- The `MjlogParser` accumulator struct from `src/parser.rs` lines 98-105. -/
structure MjlogParser where
  mjlog_version : String
  game_id : String
  rules : Option Rules
  players : List Player
  rounds : List Round
  current_round : Option Round
deriving Repr, DecidableEq

/-- `MjlogParser::new` (lines 107-117); `gid` is the freshly generated UUID. -/
def MjlogParser.new (gid : String) : MjlogParser :=
  ⟨"", gid, none, [], [], none⟩

/-- The `if let Some(round) = &mut self.current_round { round.events.push(e) }`
pattern shared by the event builders. -/
def pushEvent (p : MjlogParser) (e : Event) : MjlogParser :=
  match p.current_round with
  | some r => { p with current_round := some { r with events := r.events ++ [e] } }
  | none => p

/-- `pushEvent` iterated over a list of events. -/
def pushEvents (p : MjlogParser) (es : List Event) : MjlogParser :=
  match p.current_round with
  | some r => { p with current_round := some { r with events := r.events ++ es } }
  | none => p

/-- `parse_mjloggm` (lines 168-176): the last `ver` attribute becomes the
version; no attribute leaves the field unchanged. -/
def parse_mjloggm (p : MjlogParser) (t : Tag) : Except ParserError MjlogParser :=
  .ok { p with
    mjlog_version := t.attrs.foldl (fun v a => if a.1 = "ver" then a.2 else v) p.mjlog_version }

/-- Attribute loop of `parse_go` (lines 178-194): accumulates `type_flags`
and `lobby_id`, failing on a numeric parse error. -/
def goLocals : List (String × String) → Nat → Option Nat →
    Except ParserError (Nat × Option Nat)
  | [], tf, lid => .ok (tf, lid)
  | a :: rest, tf, lid =>
    if a.1 = "type" then
      match parseU32 a.2 with
      | some v => goLocals rest v lid
      | none => .error .parseInt
    else if a.1 = "lobby" then
      match parseU32 a.2 with
      | some v => goLocals rest tf (if v = 0 then none else some v)
      | none => .error .parseInt
    else goLocals rest tf lid

/-- `parse_go` (lines 178-201). -/
def parse_go (p : MjlogParser) (t : Tag) : Except ParserError MjlogParser :=
  (goLocals t.attrs 0 none).map fun x => { p with rules := some ⟨x.1, x.2⟩ }

/-- `dans[i] = part.parse()?` loop of `parse_un`: write the first (up to)
four comma-separated fields into the array, failing on a parse error. -/
def setParsedU32Fields : List String → Nat → List Nat → Except ParserError (List Nat)
  | [], _, arr => .ok arr
  | s :: rest, i, arr =>
    match parseU32 s with
    | some v => setParsedU32Fields rest (i + 1) (arr.set i v)
    | none => .error .parseInt

/-- `genders[i] = part.to_string()` loop of `parse_un` (no parsing). -/
def setStrFields : List String → Nat → List String → List String
  | [], _, arr => arr
  | s :: rest, i, arr => setStrFields rest (i + 1) (arr.set i s)

/-- Attribute loop of `parse_un` (lines 209-239): accumulates names, dans,
rates and genders.  The seat for an `nK` key is the digit value of its last
character (the `unwrap`s of the source cannot fail under the guard). -/
def unLocals : List (String × String) → List String → List Nat → List Nat →
    List String → Except ParserError (List String × List Nat × List Nat × List String)
  | [], names, dans, rates, genders => .ok (names, dans, rates, genders)
  | a :: rest, names, dans, rates, genders =>
    if a.1 = "n0" ∨ a.1 = "n1" ∨ a.1 = "n2" ∨ a.1 = "n3" then
      let seat :=
        match a.1.data.getLast? with
        | some c => (charToDigit10? c).getD 0
        | none => 0
      unLocals rest (names.set seat (percent_decode a.2)) dans rates genders
    else if a.1 = "dan" then
      match setParsedU32Fields ((splitComma a.2).take 4) 0 dans with
      | .ok dans' => unLocals rest names dans' rates genders
      | .error e => .error e
    else if a.1 = "rate" then
      match setParsedU32Fields ((splitComma a.2).take 4) 0 rates with
      | .ok rates' => unLocals rest names dans rates' genders
      | .error e => .error e
    else if a.1 = "sx" then
      unLocals rest names dans rates (setStrFields ((splitComma a.2).take 4) 0 genders)
    else unLocals rest names dans rates genders

/-- `parse_un` (lines 203-252): pushes four players, seats 0..3 in order. -/
def parse_un (p : MjlogParser) (t : Tag) : Except ParserError MjlogParser :=
  (unLocals t.attrs ["", "", "", ""] [0, 0, 0, 0] [0, 0, 0, 0] ["", "", "", ""]).map
    fun x =>
      { p with players := p.players ++ (List.range 4).map fun i =>
          ⟨i, x.1.getD i "", x.2.1.getD i 0, x.2.2.1.getD i 0, x.2.2.2.getD i ""⟩ }

/-- Attribute loop of `parse_taikyoku` (lines 254-263): the `oya` value is
parsed (and can fail) but is discarded. -/
def taikyokuCheck : List (String × String) → Except ParserError Unit
  | [] => .ok ()
  | a :: rest =>
    if a.1 = "oya" then
      match parseU8 a.2 with
      | some _ => taikyokuCheck rest
      | none => .error .parseInt
    else taikyokuCheck rest

/-- `parse_taikyoku` (lines 254-263). -/
def parse_taikyoku (p : MjlogParser) (t : Tag) : Except ParserError MjlogParser :=
  (taikyokuCheck t.attrs).map fun _ => p

/-- Attribute loop of `parse_init` (lines 271-286): raw `seed` and `ten`
strings, parsed `oya` seat, and the four raw hand strings. -/
def initLocals : List (String × String) → String → String → Nat → List String →
    Except ParserError (String × String × Nat × List String)
  | [], seed, ten, oya, hands => .ok (seed, ten, oya, hands)
  | a :: rest, seed, ten, oya, hands =>
    if a.1 = "seed" then initLocals rest a.2 ten oya hands
    else if a.1 = "ten" then initLocals rest seed a.2 oya hands
    else if a.1 = "oya" then
      match parseU8 a.2 with
      | some v => initLocals rest seed ten v hands
      | none => .error .parseInt
    else if a.1 = "hai0" ∨ a.1 = "hai1" ∨ a.1 = "hai2" ∨ a.1 = "hai3" then
      let seat :=
        match a.1.data.getLast? with
        | some c => (charToDigit10? c).getD 0
        | none => 0
      initLocals rest seed ten oya (hands.set seat a.2)
    else initLocals rest seed ten oya hands

/-- `seed_parts[i].parse::<u32>()?` with the `?` made explicit. -/
def expectU32 (s : String) : Except ParserError Nat :=
  match parseU32 s with
  | some v => .ok v
  | none => .error .parseInt

/-- `ten_parts[i].parse::<i32>()?` with the `?` made explicit. -/
def expectI32 (s : String) : Except ParserError Int :=
  match parseI32 s with
  | some v => .ok v
  | none => .error .parseInt

/-- The `for hand in &hands { parse_tile_list(hand)? }` loop of `parse_init`. -/
def collectHands : List String → Except ParserError (List (List String))
  | [] => .ok []
  | h :: rest =>
    match parse_tile_list h with
    | .ok tiles =>
      match collectHands rest with
      | .ok hs => .ok (tiles :: hs)
      | .error e => .error e
    | .error e => .error e

/-- The parsing part of `parse_init` (lines 265-329), which only reads the
tag: the packed `seed` (6 fields) and `ten` (4 fields) lists with explicit
length checks, and the four hands.  The list indexing is guarded by the
length checks, so `getD` equals the source's direct indexing.  Returns the
dealer seat and the `Init` snapshot. -/
def initResult (t : Tag) : Except ParserError (Nat × Init) := do
  let x ← initLocals t.attrs "" "" 0 ["", "", "", ""]
  let (seed, ten, oya, hands) := x
  let seed_parts := splitComma seed
  if seed_parts.length < 6 then
    .error (.invalidFormat "Invalid seed format")
  else do
    let round_number ← expectU32 (seed_parts.getD 0 "")
    let honba ← expectU32 (seed_parts.getD 1 "")
    let kyoutaku ← expectU32 (seed_parts.getD 2 "")
    let dice1 ← expectU32 (seed_parts.getD 3 "")
    let dice2 ← expectU32 (seed_parts.getD 4 "")
    let dora_indicator ← expectU32 (seed_parts.getD 5 "")
    let ten_parts := splitComma ten
    if ten_parts.length < 4 then
      .error (.invalidFormat "Invalid ten format")
    else do
      let s0 ← expectI32 (ten_parts.getD 0 "")
      let s1 ← expectI32 (ten_parts.getD 1 "")
      let s2 ← expectI32 (ten_parts.getD 2 "")
      let s3 ← expectI32 (ten_parts.getD 3 "")
      let initial_hands ← collectHands hands
      .ok (oya, ⟨round_number, honba, kyoutaku, (dice1, dice2), dora_indicator,
        [s0, s1, s2, s3], initial_hands⟩)

/-- `parse_init` (lines 265-345): after the pure parsing of `initResult`
(the source touches no parser state before line 331), seal any open round
and open a fresh one labelled `Round N`. -/
def parse_init (p : MjlogParser) (t : Tag) : Except ParserError MjlogParser :=
  (initResult t).map fun x =>
    let rounds' := p.rounds ++ p.current_round.toList
    let round_id := "Round " ++ toString (rounds'.length + 1)
    { p with rounds := rounds', current_round := some ⟨round_id, x.1, x.2, []⟩ }

/-- Seat of a draw tag from its first character (`parse_draw` lines 350-356;
the `unwrap_or('\0')` feeds the default arm). -/
def drawSeat (t : Tag) : Except ParserError Nat :=
  match t.name.data.head? with
  | some 'T' => .ok 0
  | some 'U' => .ok 1
  | some 'V' => .ok 2
  | some 'W' => .ok 3
  | _ => .error (.invalidFormat "Invalid draw tag")

/-- Seat of a discard tag from its first character (`parse_discard`
lines 395-401). -/
def discardSeat (t : Tag) : Except ParserError Nat :=
  match t.name.data.head? with
  | some 'D' => .ok 0
  | some 'E' => .ok 1
  | some 'F' => .ok 2
  | some 'G' => .ok 3
  | _ => .error (.invalidFormat "Invalid discard tag")

/-- Tile id encoded in the numeric suffix of a draw/discard tag name
(`T52` → 52).  The source checks the byte length and slices off the first
byte; dispatch guarantees an ASCII first character, so dropping one
character is the same slice. -/
def tagSuffixId (t : Tag) : Option Nat :=
  if strByteLen t.name > 1 then parseU32 (String.mk (t.name.data.drop 1)) else none

/-- Tile id resolution shared by `parse_draw`/`parse_discard` (lines
360-381): the first attribute with an empty key wins (a parse failure there
is fatal); otherwise the tag-name suffix is tried, failures there being
silent. -/
def drawTileId (t : Tag) : Except ParserError (Option Nat) :=
  match t.attrs.find? (fun a => a.1 = "") with
  | some a =>
    match parseU32 a.2 with
    | some id => .ok (some id)
    | none => .error .parseInt
  | none => .ok (tagSuffixId t)

/-- `parse_draw` (lines 347-390). -/
def parse_draw (p : MjlogParser) (t : Tag) : Except ParserError MjlogParser := do
  let seat ← drawSeat t
  match p.current_round with
  | none => .ok p
  | some r => do
    let tid ← drawTileId t
    match tid with
    | some id =>
      let r' : Round := { r with events := r.events ++ [Event.draw seat (tile_id_to_string id)] }
      .ok { p with current_round := some r' }
    | none => .ok p

/-- `parse_discard` (lines 392-438). -/
def parse_discard (p : MjlogParser) (t : Tag) : Except ParserError MjlogParser := do
  let seat ← discardSeat t
  match p.current_round with
  | none => .ok p
  | some r => do
    let tid ← drawTileId t
    match tid with
    | some id =>
      let r' : Round :=
        { r with events := r.events ++ [Event.discard seat (tile_id_to_string id) false] }
      .ok { p with current_round := some r' }
    | none => .ok p

/-- Attribute loop of `parse_naki` (lines 444-451): only `who` is parsed;
the `meld` value is stored in an unused local in the source. -/
def nakiLocals : List (String × String) → Nat → Except ParserError Nat
  | [], who => .ok who
  | a :: rest, who =>
    if a.1 = "who" then
      match parseU8 a.2 with
      | some v => nakiLocals rest v
      | none => .error .parseInt
    else nakiLocals rest who

/-- `parse_naki` (lines 440-465): emits a generic pon event with the
placeholder tiles `["1m","1m","1m"]` and `from = 0` (the meld data is not
decoded; see the `TODO` in the source). -/
def parse_naki (p : MjlogParser) (t : Tag) : Except ParserError MjlogParser :=
  (nakiLocals t.attrs 0).map fun who =>
    pushEvent p (Event.pon who ["1m", "1m", "1m"] 0)

/-- `parse_dora` (lines 467-479): one event per `hai` attribute, pushed
inside the attribute loop. -/
def doraFold (p : MjlogParser) : List (String × String) → Except ParserError MjlogParser
  | [] => .ok p
  | a :: rest =>
    if a.1 = "hai" then
      match parseU32 a.2 with
      | some tile_id =>
        doraFold (pushEvent p (Event.dora (tile_id_to_string tile_id))) rest
      | none => .error .parseInt
    else doraFold p rest

/-- `parse_dora` (lines 467-479). -/
def parse_dora (p : MjlogParser) (t : Tag) : Except ParserError MjlogParser :=
  doraFold p t.attrs

/-- `scores[i] = part.parse::<i32>()?` loop shared by `parse_reach`
(first four comma-separated fields). -/
def setParsedI32Fields : List String → Nat → List Int → Except ParserError (List Int)
  | [], _, arr => .ok arr
  | s :: rest, i, arr =>
    match parseI32 s with
    | some v => setParsedI32Fields rest (i + 1) (arr.set i v)
    | none => .error .parseInt

/-- Attribute loop of `parse_reach` (lines 486-500). -/
def reachLocals : List (String × String) → Nat → Nat → List Int →
    Except ParserError (Nat × Nat × List Int)
  | [], who, step, scores => .ok (who, step, scores)
  | a :: rest, who, step, scores =>
    if a.1 = "who" then
      match parseU8 a.2 with
      | some v => reachLocals rest v step scores
      | none => .error .parseInt
    else if a.1 = "step" then
      match parseU8 a.2 with
      | some v => reachLocals rest who v scores
      | none => .error .parseInt
    else if a.1 = "ten" then
      match setParsedI32Fields ((splitComma a.2).take 4) 0 scores with
      | .ok scores' => reachLocals rest who step scores'
      | .error e => .error e
    else reachLocals rest who step scores

/-- `parse_reach` (lines 481-507). -/
def parse_reach (p : MjlogParser) (t : Tag) : Except ParserError MjlogParser :=
  (reachLocals t.attrs 0 1 [0, 0, 0, 0]).map fun x =>
    pushEvent p (Event.reach x.1 x.2.1 x.2.2)

/-- Rust `slice::chunks(2)`. -/
def chunks2 : List α → List (List α)
  | [] => []
  | [a] => [[a]]
  | a :: b :: rest => [a, b] :: chunks2 rest

/-- The `sc` attribute loop shared by `parse_agari` and `parse_ryuukyoku`:
for each of the first four before/change pairs, parse both numbers and keep
only the change. -/
def setScChunks : List (List String) → Nat → List Int → Except ParserError (List Int)
  | [], _, sc => .ok sc
  | ch :: rest, i, sc =>
    if ch.length ≥ 2 then
      match parseI32 (ch.getD 0 "") with
      | none => .error .parseInt
      | some _ =>
        match parseI32 (ch.getD 1 "") with
        | none => .error .parseInt
        | some change => setScChunks rest (i + 1) (sc.set i change)
    else setScChunks rest (i + 1) sc

/-- Attribute loop of `parse_agari` (lines 518-552): `who`, `fromWho`,
the packed `ten` triple (fu, discarded total, han), one placeholder yaku
per `yaku` attribute, and the `sc` score deltas. -/
def agariLocals : List (String × String) → Nat → Nat → Nat → Nat →
    List Yaku → List Int →
    Except ParserError (Nat × Nat × Nat × Nat × List Yaku × List Int)
  | [], who, from_seat, han, fu, yakus, scores => .ok (who, from_seat, han, fu, yakus, scores)
  | a :: rest, who, from_seat, han, fu, yakus, scores =>
    if a.1 = "who" then
      match parseU8 a.2 with
      | some v => agariLocals rest v from_seat han fu yakus scores
      | none => .error .parseInt
    else if a.1 = "fromWho" then
      match parseU8 a.2 with
      | some v => agariLocals rest who v han fu yakus scores
      | none => .error .parseInt
    else if a.1 = "ten" then
      let parts := splitComma a.2
      if parts.length ≥ 3 then
        match parseU32 (parts.getD 0 "") with
        | none => .error .parseInt
        | some fu' =>
          match parseI32 (parts.getD 1 "") with
          | none => .error .parseInt
          | some _ =>
            match parseU32 (parts.getD 2 "") with
            | none => .error .parseInt
            | some han' => agariLocals rest who from_seat han' fu' yakus scores
      else agariLocals rest who from_seat han fu yakus scores
    else if a.1 = "yaku" then
      agariLocals rest who from_seat han fu (yakus ++ [⟨"Unknown", 1⟩]) scores
    else if a.1 = "sc" then
      match setScChunks ((chunks2 (splitComma a.2)).take 4) 0 scores with
      | .ok scores' => agariLocals rest who from_seat han fu yakus scores'
      | .error e => .error e
    else agariLocals rest who from_seat han fu yakus scores

/-- `parse_agari` (lines 509-567); `dora_count` is the constant 0 in the
source. -/
def parse_agari (p : MjlogParser) (t : Tag) : Except ParserError MjlogParser :=
  (agariLocals t.attrs 0 0 0 0 [] [0, 0, 0, 0]).map fun x =>
    pushEvent p (Event.agari x.1 x.2.1 x.2.2.1 x.2.2.2.1 x.2.2.2.2.1 0 x.2.2.2.2.2)

/-- The `type` string to `RyuukyokuReason` mapping of `parse_ryuukyoku`
(lines 576-586), with the fallback to `Normal`. -/
def ryuukyokuReasonOf (s : String) : RyuukyokuReason :=
  if s = "nm" then .normal
  else if s = "yao9" then .yao9
  else if s = "kaze4" then .kaze4
  else if s = "reach4" then .reach4
  else if s = "ron3" then .ron3
  else if s = "kan4" then .kan4
  else .normal

/-- Attribute loop of `parse_ryuukyoku` (lines 573-601). -/
def ryuukyokuLocals : List (String × String) → RyuukyokuReason → List Int →
    Except ParserError (RyuukyokuReason × List Int)
  | [], reason, scores => .ok (reason, scores)
  | a :: rest, reason, scores =>
    if a.1 = "type" then ryuukyokuLocals rest (ryuukyokuReasonOf a.2) scores
    else if a.1 = "sc" then
      match setScChunks ((chunks2 (splitComma a.2)).take 4) 0 scores with
      | .ok scores' => ryuukyokuLocals rest reason scores'
      | .error e => .error e
    else ryuukyokuLocals rest reason scores

/-- `parse_ryuukyoku` (lines 569-608). -/
def parse_ryuukyoku (p : MjlogParser) (t : Tag) : Except ParserError MjlogParser :=
  (ryuukyokuLocals t.attrs .normal [0, 0, 0, 0]).map fun x =>
    pushEvent p (Event.ryuukyoku x.1 x.2)

/-- Tag dispatch of `MjlogParser::parse` (lines 122-157): named tags first,
then the draw/discard tag families by first character, and unknown tags
are ignored. -/
def stepTag (p : MjlogParser) (t : Tag) : Except ParserError MjlogParser :=
  if t.name = "mjloggm" then parse_mjloggm p t
  else if t.name = "GO" then parse_go p t
  else if t.name = "UN" then parse_un p t
  else if t.name = "TAIKYOKU" then parse_taikyoku p t
  else if t.name = "INIT" then parse_init p t
  else if t.name = "N" then parse_naki p t
  else if t.name = "DORA" then parse_dora p t
  else if t.name = "REACH" then parse_reach p t
  else if t.name = "AGARI" then parse_agari p t
  else if t.name = "RYUUKYOKU" then parse_ryuukyoku p t
  else
    match t.name.data.head? with
    | none => .ok p
    | some c =>
      if c = 'T' ∨ c = 'U' ∨ c = 'V' ∨ c = 'W' then parse_draw p t
      else if c = 'D' ∨ c = 'E' ∨ c = 'F' ∨ c = 'G' then parse_discard p t
      else .ok p

/-- The event loop of `MjlogParser::parse` (lines 122-158). -/
def runTags (p : MjlogParser) : List Tag → Except ParserError MjlogParser
  | [] => .ok p
  | t :: rest =>
    match stepTag p t with
    | .ok p' => runTags p' rest
    | .error e => .error e

/-- The end-of-stream sealing of `MjlogParser::parse` (lines 161-163). -/
def sealRounds (p : MjlogParser) : MjlogParser :=
  { p with rounds := p.rounds ++ p.current_round.toList, current_round := none }

/-- `MjlogParser::parse` (lines 119-166) over an already-read tag stream. -/
def MjlogParser.run (p : MjlogParser) (ts : List Tag) : Except ParserError MjlogParser :=
  (runTags p ts).map sealRounds

/-- `MjlogParser::into_output` (lines 610-621). -/
def into_output (p : MjlogParser) : ParserOutput :=
  ⟨p.mjlog_version, p.game_id, p.rules.getD ⟨0, none⟩, p.players, p.rounds⟩

/-- `parse_mjlog` (lines 58-96) at the tag-stream level: `gid` stands for
the UUID freshly generated by `MjlogParser::new`. -/
def parse_mjlog (gid : String) (ts : List Tag) : Except ParserError ParserOutput :=
  ((MjlogParser.new gid).run ts).map into_output

/-! ## Derived notions used to state the claims -/

/-- Append events to a round's event list. -/
def addEvents (r : Round) (es : List Event) : Round :=
  { r with events := r.events ++ es }

/-- Does the tag dispatch to `parse_init`? -/
def isInitTag (t : Tag) : Bool :=
  t.name = "INIT"

/-- Number of initialization tags in a stream. -/
def countInit (ts : List Tag) : Nat :=
  ts.countP fun t => isInitTag t

/-- Number of roster (`UN`) tags in a stream. -/
def countUN (ts : List Tag) : Nat :=
  ts.countP fun t => t.name = "UN"

/-- The ten tag names dispatched by full-name match in `MjlogParser::parse`. -/
def dispatchNames : List String :=
  ["mjloggm", "GO", "UN", "TAIKYOKU", "INIT", "N", "DORA", "REACH", "AGARI", "RYUUKYOKU"]

/-- The eight per-seat first characters of the draw/discard tag families. -/
def seatChars : List Char :=
  ['T', 'U', 'V', 'W', 'D', 'E', 'F', 'G']

/-- A tag the dispatch recognizes: either one of the ten named tags, or a
member of a draw/discard family by first character. -/
def recognizedTag (t : Tag) : Bool :=
  dispatchNames.contains t.name ||
    (match t.name.data.head? with
     | some c => seatChars.contains c
     | none => false)

/-- Does the tag dispatch to `parse_draw` or `parse_discard`? -/
def isDrawDiscardTag (t : Tag) : Bool :=
  !dispatchNames.contains t.name &&
    (match t.name.data.head? with
     | some c => seatChars.contains c
     | none => false)

/-- Does the tag dispatch to one of the gameplay event builders
(draw, discard, call, dora-reveal, reach, win, exhaustive/abortive draw)? -/
def isGameplayTag (t : Tag) : Bool :=
  t.name = "N" || t.name = "DORA" || t.name = "REACH" || t.name = "AGARI" ||
    t.name = "RYUUKYOKU" || isDrawDiscardTag t

/-- Value of the last attribute named `k`, or the default `d`: the result of
the sequential attribute loops of the handlers. -/
def lastAttrD (t : Tag) (k d : String) : String :=
  t.attrs.foldl (fun v a => if a.1 = k then a.2 else v) d

/-- The raw `seed` string `parse_init` works on. -/
def seedStr (t : Tag) : String :=
  lastAttrD t "seed" ""

/-- The raw `ten` string `parse_init` works on. -/
def tenStr (t : Tag) : String :=
  lastAttrD t "ten" ""

/-- Every `oya` attribute of the tag parses as a `u8`; this is exactly the
condition under which the attribute loop of `parse_init` succeeds. -/
def oyaAttrsOk (t : Tag) : Prop :=
  ∀ a ∈ t.attrs, a.1 = "oya" → (parseU8 a.2).isSome

/-- Events that a successful `parse_dora` pushes, one per `hai` attribute. -/
def doraEvents : List (String × String) → List Event
  | [] => []
  | a :: rest =>
    if a.1 = "hai" then
      match parseU32 a.2 with
      | some id => Event.dora (tile_id_to_string id) :: doraEvents rest
      | none => doraEvents rest
    else doraEvents rest

/-- Event that a successful `parse_draw` pushes while a round is open. -/
def drawEventsOf (t : Tag) : List Event :=
  match drawSeat t, drawTileId t with
  | .ok seat, .ok (some id) => [Event.draw seat (tile_id_to_string id)]
  | _, _ => []

/-- Event that a successful `parse_discard` pushes while a round is open. -/
def discardEventsOf (t : Tag) : List Event :=
  match discardSeat t, drawTileId t with
  | .ok seat, .ok (some id) => [Event.discard seat (tile_id_to_string id) false]
  | _, _ => []

/-- The events a tag contributes to the open round when its handler
succeeds: the per-tag event production of `MjlogParser::parse`, read off
the event builders.  Metadata tags (and `INIT`, which opens a fresh round
instead) contribute nothing. -/
def producedEvents (t : Tag) : List Event :=
  if t.name = "mjloggm" ∨ t.name = "GO" ∨ t.name = "UN" ∨ t.name = "TAIKYOKU"
      ∨ t.name = "INIT" then []
  else if t.name = "N" then
    match nakiLocals t.attrs 0 with
    | .ok who => [Event.pon who ["1m", "1m", "1m"] 0]
    | .error _ => []
  else if t.name = "DORA" then doraEvents t.attrs
  else if t.name = "REACH" then
    match reachLocals t.attrs 0 1 [0, 0, 0, 0] with
    | .ok x => [Event.reach x.1 x.2.1 x.2.2]
    | .error _ => []
  else if t.name = "AGARI" then
    match agariLocals t.attrs 0 0 0 0 [] [0, 0, 0, 0] with
    | .ok x => [Event.agari x.1 x.2.1 x.2.2.1 x.2.2.2.1 x.2.2.2.2.1 0 x.2.2.2.2.2]
    | .error _ => []
  else if t.name = "RYUUKYOKU" then
    match ryuukyokuLocals t.attrs .normal [0, 0, 0, 0] with
    | .ok x => [Event.ryuukyoku x.1 x.2]
    | .error _ => []
  else
    match t.name.data.head? with
    | none => []
    | some c =>
      if c = 'T' ∨ c = 'U' ∨ c = 'V' ∨ c = 'W' then drawEventsOf t
      else if c = 'D' ∨ c = 'E' ∨ c = 'F' ∨ c = 'G' then discardEventsOf t
      else []

/-- Replace the game id of a parser state (used to relate two runs of the
parser that differ only in the generated UUID). -/
def setPGid (p : MjlogParser) (g : String) : MjlogParser :=
  { p with game_id := g }

/-- Replace the game id of an output document. -/
def setOutGid (o : ParserOutput) (g : String) : ParserOutput :=
  { o with game_id := g }

/-- Per-tag seat block contributed to the roster: `parse_un` pushes four
players with seats 0,1,2,3; every other handler leaves the roster alone. -/
def unSeatBlock (t : Tag) : List Nat :=
  if t.name = "UN" then [0, 1, 2, 3] else []

/-- Concrete valid initialization tag used by witnesses. -/
def sampleInitTag : Tag :=
  ⟨"INIT", [("seed", "0,0,0,1,2,52"), ("ten", "250,250,250,250"), ("oya", "0"),
    ("hai0", "0,4"), ("hai1", "1,5"), ("hai2", "2,6"), ("hai3", "3,7")]⟩

/-- Concrete roster tag used by witnesses. -/
def sampleUnTag : Tag :=
  ⟨"UN", [("n0", "Player1"), ("n1", "Player2"), ("n2", "Player3"), ("n3", "Player4"),
    ("dan", "1,2,3,4"), ("rate", "1500,1600,1700,1800"), ("sx", "M,M,M,M")]⟩

/-- Concrete call tag used for the meld-decoding claim. -/
def sampleNakiTag : Tag :=
  ⟨"N", [("who", "1"), ("m", "12345")]⟩

/-! ## Theorems -/

set_option maxRecDepth 4000

theorem addEvents_nil (r : Round) : addEvents r [] = r := by
  cases r
  simp [addEvents]

theorem addEvents_append (r : Round) (es1 es2 : List Event) :
    addEvents (addEvents r es1) es2 = addEvents r (es1 ++ es2) := by
  cases r
  simp [addEvents]

theorem map_addEvents_nil (o : Option Round) :
    o.map (fun r => addEvents r []) = o := by
  cases o <;> simp [addEvents_nil]

theorem pushEvents_spec (p : MjlogParser) (es : List Event) :
    pushEvents p es = { p with current_round := p.current_round.map fun r => addEvents r es } := by
  obtain ⟨mv, gid, ru, pl, ro, cu⟩ := p
  cases cu <;> simp [pushEvents, addEvents]

theorem pushEvent_eq_pushEvents (p : MjlogParser) (e : Event) :
    pushEvent p e = pushEvents p [e] := by
  obtain ⟨mv, gid, ru, pl, ro, cu⟩ := p
  cases cu <;> rfl

theorem pushEvents_idle (p : MjlogParser) (es : List Event)
    (h : p.current_round = none) : pushEvents p es = p := by
  obtain ⟨mv, gid, ru, pl, ro, cu⟩ := p
  cases cu
  · rfl
  · exact absurd h (by simp)

theorem pushEvent_then (p : MjlogParser) (e : Event) (es : List Event) :
    pushEvents (pushEvent p e) es = pushEvents p (e :: es) := by
  obtain ⟨mv, gid, ru, pl, ro, cu⟩ := p
  cases cu with
  | none => rfl
  | some r => simp [pushEvent, pushEvents]

theorem parse_mjloggm_ok {p : MjlogParser} {t : Tag} {q : MjlogParser}
    (h : parse_mjloggm p t = .ok q) :
    q = { p with
      mjlog_version := t.attrs.foldl (fun v a => if a.1 = "ver" then a.2 else v) p.mjlog_version } := by
  simpa [parse_mjloggm] using h.symm

theorem parse_go_ok {p : MjlogParser} {t : Tag} {q : MjlogParser}
    (h : parse_go p t = .ok q) :
    ∃ x, goLocals t.attrs 0 none = .ok x ∧ q = { p with rules := some ⟨x.1, x.2⟩ } := by
  unfold parse_go at h
  cases hg : goLocals t.attrs 0 none with
  | error e => rw [hg] at h; simp [Except.map] at h
  | ok x =>
    rw [hg] at h
    simp only [Except.map, Except.ok.injEq] at h
    exact ⟨x, rfl, h.symm⟩

theorem parse_un_ok {p : MjlogParser} {t : Tag} {q : MjlogParser}
    (h : parse_un p t = .ok q) :
    ∃ x : List String × List Nat × List Nat × List String,
      q = { p with players := p.players ++ (List.range 4).map fun i =>
        ⟨i, x.1.getD i "", x.2.1.getD i 0, x.2.2.1.getD i 0, x.2.2.2.getD i ""⟩ } := by
  unfold parse_un at h
  cases hu : unLocals t.attrs ["", "", "", ""] [0, 0, 0, 0] [0, 0, 0, 0] ["", "", "", ""] with
  | error e => rw [hu] at h; simp [Except.map] at h
  | ok x =>
    rw [hu] at h
    simp only [Except.map, Except.ok.injEq] at h
    exact ⟨x, h.symm⟩

theorem parse_taikyoku_ok {p : MjlogParser} {t : Tag} {q : MjlogParser}
    (h : parse_taikyoku p t = .ok q) : q = p := by
  unfold parse_taikyoku at h
  cases hk : taikyokuCheck t.attrs with
  | error e => rw [hk] at h; simp [Except.map] at h
  | ok u => rw [hk] at h; simpa [Except.map] using h.symm

theorem parse_naki_ok {p : MjlogParser} {t : Tag} {q : MjlogParser}
    (h : parse_naki p t = .ok q) :
    ∃ who, nakiLocals t.attrs 0 = .ok who ∧
      q = pushEvent p (Event.pon who ["1m", "1m", "1m"] 0) := by
  unfold parse_naki at h
  cases hn : nakiLocals t.attrs 0 with
  | error e => rw [hn] at h; simp [Except.map] at h
  | ok who =>
    rw [hn] at h
    simp only [Except.map, Except.ok.injEq] at h
    exact ⟨who, rfl, h.symm⟩

theorem parse_reach_ok {p : MjlogParser} {t : Tag} {q : MjlogParser}
    (h : parse_reach p t = .ok q) :
    ∃ x, reachLocals t.attrs 0 1 [0, 0, 0, 0] = .ok x ∧
      q = pushEvent p (Event.reach x.1 x.2.1 x.2.2) := by
  unfold parse_reach at h
  cases hr : reachLocals t.attrs 0 1 [0, 0, 0, 0] with
  | error e => rw [hr] at h; simp [Except.map] at h
  | ok x =>
    rw [hr] at h
    simp only [Except.map, Except.ok.injEq] at h
    exact ⟨x, rfl, h.symm⟩

theorem parse_agari_ok {p : MjlogParser} {t : Tag} {q : MjlogParser}
    (h : parse_agari p t = .ok q) :
    ∃ x, agariLocals t.attrs 0 0 0 0 [] [0, 0, 0, 0] = .ok x ∧
      q = pushEvent p (Event.agari x.1 x.2.1 x.2.2.1 x.2.2.2.1 x.2.2.2.2.1 0 x.2.2.2.2.2) := by
  unfold parse_agari at h
  cases ha : agariLocals t.attrs 0 0 0 0 [] [0, 0, 0, 0] with
  | error e => rw [ha] at h; simp [Except.map] at h
  | ok x =>
    rw [ha] at h
    simp only [Except.map, Except.ok.injEq] at h
    exact ⟨x, rfl, h.symm⟩

theorem parse_ryuukyoku_ok {p : MjlogParser} {t : Tag} {q : MjlogParser}
    (h : parse_ryuukyoku p t = .ok q) :
    ∃ x, ryuukyokuLocals t.attrs .normal [0, 0, 0, 0] = .ok x ∧
      q = pushEvent p (Event.ryuukyoku x.1 x.2) := by
  unfold parse_ryuukyoku at h
  cases hr : ryuukyokuLocals t.attrs .normal [0, 0, 0, 0] with
  | error e => rw [hr] at h; simp [Except.map] at h
  | ok x =>
    rw [hr] at h
    simp only [Except.map, Except.ok.injEq] at h
    exact ⟨x, rfl, h.symm⟩

theorem parse_init_ok {p : MjlogParser} {t : Tag} {q : MjlogParser}
    (h : parse_init p t = .ok q) :
    q.rounds = p.rounds ++ p.current_round.toList ∧
    (∃ r, q.current_round = some r ∧ r.events = []) ∧
    q.players = p.players ∧ q.game_id = p.game_id ∧
    q.mjlog_version = p.mjlog_version ∧ q.rules = p.rules := by
  unfold parse_init at h
  cases hi : initResult t with
  | error e => rw [hi] at h; simp [Except.map] at h
  | ok x =>
    rw [hi] at h
    simp only [Except.map, Except.ok.injEq] at h
    subst h
    refine ⟨rfl, ⟨_, rfl, rfl⟩, rfl, rfl, rfl, rfl⟩

theorem except_bind_error {α β : Type} (e : ParserError)
    (f : α → Except ParserError β) :
    (Except.error e >>= f : Except ParserError β) = Except.error e := rfl

theorem except_bind_ok {α β : Type} (v : α) (f : α → Except ParserError β) :
    (Except.ok v >>= f : Except ParserError β) = f v := rfl

theorem doraEvents_cons_hai {a : String × String} {rest : List (String × String)}
    {id : Nat} (ha : a.1 = "hai") (hp : parseU32 a.2 = some id) :
    doraEvents (a :: rest) = Event.dora (tile_id_to_string id) :: doraEvents rest := by
  conv_lhs => unfold doraEvents
  rw [if_pos ha, hp]

theorem doraEvents_cons_skip {a : String × String} {rest : List (String × String)}
    (ha : a.1 ≠ "hai") : doraEvents (a :: rest) = doraEvents rest := by
  conv_lhs => unfold doraEvents
  rw [if_neg ha]

theorem doraFold_ok {l : List (String × String)} {p q : MjlogParser}
    (h : doraFold p l = .ok q) : q = pushEvents p (doraEvents l) := by
  induction l generalizing p with
  | nil =>
    simp only [doraFold, Except.ok.injEq] at h
    subst h
    simp [doraEvents, pushEvents_spec, map_addEvents_nil]
  | cons a rest ih =>
    unfold doraFold at h
    by_cases ha : a.1 = "hai"
    · rw [if_pos ha] at h
      cases hp : parseU32 a.2 with
      | none => rw [hp] at h; simp at h
      | some id =>
        rw [hp] at h
        rw [ih h, pushEvent_then, doraEvents_cons_hai ha hp]
    · rw [if_neg ha] at h
      rw [ih h, doraEvents_cons_skip ha]

theorem parse_dora_ok {p : MjlogParser} {t : Tag} {q : MjlogParser}
    (h : parse_dora p t = .ok q) : q = pushEvents p (doraEvents t.attrs) :=
  doraFold_ok h

theorem parse_draw_ok {p : MjlogParser} {t : Tag} {q : MjlogParser}
    (h : parse_draw p t = .ok q) :
    q.rounds = p.rounds ∧ q.players = p.players ∧ q.game_id = p.game_id ∧
    q.mjlog_version = p.mjlog_version ∧ q.rules = p.rules ∧
    q.current_round = p.current_round.map (fun r => addEvents r (drawEventsOf t)) := by
  unfold parse_draw at h
  cases hs : drawSeat t with
  | error e => rw [hs, except_bind_error] at h; simp at h
  | ok seat =>
    rw [hs, except_bind_ok] at h
    cases hc : p.current_round with
    | none =>
      rw [hc] at h
      dsimp only at h
      simp only [Except.ok.injEq] at h
      subst h
      simp [hc]
    | some r =>
      rw [hc] at h
      dsimp only at h
      cases ht : drawTileId t with
      | error e => rw [ht, except_bind_error] at h; simp at h
      | ok tid =>
        rw [ht, except_bind_ok] at h
        cases tid with
        | some id =>
          simp only [Except.ok.injEq] at h
          subst h
          simp [hc, drawEventsOf, hs, ht, addEvents]
        | none =>
          simp only [Except.ok.injEq] at h
          subst h
          simp [hc, drawEventsOf, hs, ht, addEvents_nil]

theorem parse_discard_ok {p : MjlogParser} {t : Tag} {q : MjlogParser}
    (h : parse_discard p t = .ok q) :
    q.rounds = p.rounds ∧ q.players = p.players ∧ q.game_id = p.game_id ∧
    q.mjlog_version = p.mjlog_version ∧ q.rules = p.rules ∧
    q.current_round = p.current_round.map (fun r => addEvents r (discardEventsOf t)) := by
  unfold parse_discard at h
  cases hs : discardSeat t with
  | error e => rw [hs, except_bind_error] at h; simp at h
  | ok seat =>
    rw [hs, except_bind_ok] at h
    cases hc : p.current_round with
    | none =>
      rw [hc] at h
      dsimp only at h
      simp only [Except.ok.injEq] at h
      subst h
      simp [hc]
    | some r =>
      rw [hc] at h
      dsimp only at h
      cases ht : drawTileId t with
      | error e => rw [ht, except_bind_error] at h; simp at h
      | ok tid =>
        rw [ht, except_bind_ok] at h
        cases tid with
        | some id =>
          simp only [Except.ok.injEq] at h
          subst h
          simp [hc, discardEventsOf, hs, ht, addEvents]
        | none =>
          simp only [Except.ok.injEq] at h
          subst h
          simp [hc, discardEventsOf, hs, ht, addEvents_nil]

theorem stepTag_ok_init {p : MjlogParser} {t : Tag} {q : MjlogParser}
    (hname : t.name = "INIT") (h : stepTag p t = .ok q) :
    q.rounds = p.rounds ++ p.current_round.toList ∧
    (∃ r, q.current_round = some r ∧ r.events = []) ∧
    q.players = p.players ∧ q.game_id = p.game_id := by
  have hst : stepTag p t = parse_init p t := by simp [stepTag, hname]
  rw [hst] at h
  obtain ⟨h1, h2, h3, h4, _, _⟩ := parse_init_ok h
  exact ⟨h1, h2, h3, h4⟩

theorem stepTag_ok_nonInit {p : MjlogParser} {t : Tag} {q : MjlogParser}
    (hni : t.name ≠ "INIT") (h : stepTag p t = .ok q) :
    q.rounds = p.rounds ∧
    q.current_round = p.current_round.map (fun r => addEvents r (producedEvents t)) ∧
    q.game_id = p.game_id ∧
    q.players.map Player.seat = p.players.map Player.seat ++ unSeatBlock t := by
  by_cases h1 : t.name = "mjloggm"
  · have hst : stepTag p t = parse_mjloggm p t := by simp [stepTag, h1]
    rw [hst] at h
    obtain rfl := parse_mjloggm_ok h
    refine ⟨rfl, ?_, rfl, ?_⟩
    · have hpe : producedEvents t = [] := by simp [producedEvents, h1]
      rw [hpe, map_addEvents_nil]
    · simp [unSeatBlock, h1]
  by_cases h2 : t.name = "GO"
  · have hst : stepTag p t = parse_go p t := by simp [stepTag, h2]
    rw [hst] at h
    obtain ⟨x, -, rfl⟩ := parse_go_ok h
    refine ⟨rfl, ?_, rfl, ?_⟩
    · have hpe : producedEvents t = [] := by simp [producedEvents, h2]
      rw [hpe, map_addEvents_nil]
    · simp [unSeatBlock, h2]
  by_cases h3 : t.name = "UN"
  · have hst : stepTag p t = parse_un p t := by simp [stepTag, h3]
    rw [hst] at h
    obtain ⟨x, rfl⟩ := parse_un_ok h
    refine ⟨rfl, ?_, rfl, ?_⟩
    · have hpe : producedEvents t = [] := by simp [producedEvents, h3]
      rw [hpe, map_addEvents_nil]
    · simp [unSeatBlock, h3, List.range_succ]
  by_cases h4 : t.name = "TAIKYOKU"
  · have hst : stepTag p t = parse_taikyoku p t := by simp [stepTag, h4]
    rw [hst] at h
    obtain rfl := parse_taikyoku_ok h
    refine ⟨rfl, ?_, rfl, ?_⟩
    · have hpe : producedEvents t = [] := by simp [producedEvents, h4]
      rw [hpe, map_addEvents_nil]
    · simp [unSeatBlock, h4]
  by_cases h5 : t.name = "N"
  · have hst : stepTag p t = parse_naki p t := by simp [stepTag, h5]
    rw [hst] at h
    obtain ⟨who, hwho, rfl⟩ := parse_naki_ok h
    have hpe : producedEvents t = [Event.pon who ["1m", "1m", "1m"] 0] := by
      simp [producedEvents, h5, hwho]
    rw [pushEvent_eq_pushEvents, pushEvents_spec, hpe]
    refine ⟨rfl, rfl, rfl, ?_⟩
    simp [unSeatBlock, h5]
  by_cases h6 : t.name = "DORA"
  · have hst : stepTag p t = parse_dora p t := by simp [stepTag, h6]
    rw [hst] at h
    obtain rfl := parse_dora_ok h
    have hpe : producedEvents t = doraEvents t.attrs := by
      simp [producedEvents, h6]
    rw [pushEvents_spec, hpe]
    refine ⟨rfl, rfl, rfl, ?_⟩
    simp [unSeatBlock, h6]
  by_cases h7 : t.name = "REACH"
  · have hst : stepTag p t = parse_reach p t := by simp [stepTag, h7]
    rw [hst] at h
    obtain ⟨x, hx, rfl⟩ := parse_reach_ok h
    have hpe : producedEvents t = [Event.reach x.1 x.2.1 x.2.2] := by
      simp [producedEvents, h7, hx]
    rw [pushEvent_eq_pushEvents, pushEvents_spec, hpe]
    refine ⟨rfl, rfl, rfl, ?_⟩
    simp [unSeatBlock, h7]
  by_cases h8 : t.name = "AGARI"
  · have hst : stepTag p t = parse_agari p t := by simp [stepTag, h8]
    rw [hst] at h
    obtain ⟨x, hx, rfl⟩ := parse_agari_ok h
    have hpe : producedEvents t =
        [Event.agari x.1 x.2.1 x.2.2.1 x.2.2.2.1 x.2.2.2.2.1 0 x.2.2.2.2.2] := by
      simp [producedEvents, h8, hx]
    rw [pushEvent_eq_pushEvents, pushEvents_spec, hpe]
    refine ⟨rfl, rfl, rfl, ?_⟩
    simp [unSeatBlock, h8]
  by_cases h9 : t.name = "RYUUKYOKU"
  · have hst : stepTag p t = parse_ryuukyoku p t := by simp [stepTag, h9]
    rw [hst] at h
    obtain ⟨x, hx, rfl⟩ := parse_ryuukyoku_ok h
    have hpe : producedEvents t = [Event.ryuukyoku x.1 x.2] := by
      simp [producedEvents, h9, hx]
    rw [pushEvent_eq_pushEvents, pushEvents_spec, hpe]
    refine ⟨rfl, rfl, rfl, ?_⟩
    simp [unSeatBlock, h9]
  -- draw/discard families and unknown tags
  cases hhead : t.name.data.head? with
  | none =>
    have hst : stepTag p t = .ok p := by
      simp [stepTag, h1, h2, h3, h4, hni, h5, h6, h7, h8, h9, hhead]
    rw [hst] at h
    obtain rfl : p = q := by simpa using h
    have hpe : producedEvents t = [] := by
      simp [producedEvents, h1, h2, h3, h4, hni, h5, h6, h7, h8, h9, hhead]
    rw [hpe, map_addEvents_nil]
    refine ⟨rfl, rfl, rfl, ?_⟩
    simp [unSeatBlock, h3]
  | some c =>
    by_cases hc1 : c = 'T' ∨ c = 'U' ∨ c = 'V' ∨ c = 'W'
    · have hst : stepTag p t = parse_draw p t := by
        simp [stepTag, h1, h2, h3, h4, hni, h5, h6, h7, h8, h9, hhead, hc1]
      rw [hst] at h
      obtain ⟨ha, hb, hcq, -, -, hcur⟩ := parse_draw_ok h
      have hpe : producedEvents t = drawEventsOf t := by
        simp [producedEvents, h1, h2, h3, h4, hni, h5, h6, h7, h8, h9, hhead, hc1]
      rw [hpe]
      refine ⟨ha, hcur, hcq, ?_⟩
      rw [hb]
      simp [unSeatBlock, h3]
    by_cases hc2 : c = 'D' ∨ c = 'E' ∨ c = 'F' ∨ c = 'G'
    · have hst : stepTag p t = parse_discard p t := by
        simp [stepTag, h1, h2, h3, h4, hni, h5, h6, h7, h8, h9, hhead, hc1, hc2]
      rw [hst] at h
      obtain ⟨ha, hb, hcq, -, -, hcur⟩ := parse_discard_ok h
      have hpe : producedEvents t = discardEventsOf t := by
        simp [producedEvents, h1, h2, h3, h4, hni, h5, h6, h7, h8, h9, hhead, hc1, hc2]
      rw [hpe]
      refine ⟨ha, hcur, hcq, ?_⟩
      rw [hb]
      simp [unSeatBlock, h3]
    · have hst : stepTag p t = .ok p := by
        simp [stepTag, h1, h2, h3, h4, hni, h5, h6, h7, h8, h9, hhead, hc1, hc2]
      rw [hst] at h
      obtain rfl : p = q := by simpa using h
      have hpe : producedEvents t = [] := by
        simp [producedEvents, h1, h2, h3, h4, hni, h5, h6, h7, h8, h9, hhead, hc1, hc2]
      rw [hpe, map_addEvents_nil]
      refine ⟨rfl, rfl, rfl, ?_⟩
      simp [unSeatBlock, h3]

theorem tile_in_range_not_fallback :
    ∀ id < 136, tile_id_to_string id ≠ "" ∧
      ¬ ("unknown_".data.isPrefixOf (tile_id_to_string id).data) := by
  decide

theorem tile_out_of_range_fallback (id : Nat) (h : 135 < id) :
    tile_id_to_string id = "unknown_" ++ toString id := by
  have h4 : 33 < id / 4 := by omega
  have hle : ∀ m : Nat, m ≤ 33 → ¬(id / 4 ≤ m) := fun m hm => by omega
  have heq : ∀ m : Nat, m ≤ 33 → ¬(id / 4 = m) := fun m hm => by omega
  rw [tile_id_to_string, tileNameOfType,
    if_neg (hle 8 (by norm_num)), if_neg (hle 17 (by norm_num)),
    if_neg (hle 26 (by norm_num)), if_neg (heq 27 (by norm_num)),
    if_neg (heq 28 (by norm_num)), if_neg (heq 29 (by norm_num)),
    if_neg (heq 30 (by norm_num)), if_neg (heq 31 (by norm_num)),
    if_neg (heq 32 (by norm_num)), if_neg (heq 33 (by norm_num))]

/-- C3: the tile encoder is total: every id 0..135 gets a defined, non-empty
canonical name that is never the fallback form, and every id above 135
(in particular 136 and 9999) gets the deterministic fallback string
`unknown_<id>` embedding the raw id, without signalling an error. -/
theorem tile_encoder_totality :
    (∀ id : Nat, id ≤ 135 → tile_id_to_string id ≠ "" ∧
      ¬ ("unknown_".data.isPrefixOf (tile_id_to_string id).data)) ∧
    (∀ id : Nat, 135 < id → tile_id_to_string id = "unknown_" ++ toString id) := by
  constructor
  · intro id h
    exact tile_in_range_not_fallback id (by omega)
  · intro id h
    exact tile_out_of_range_fallback id h

/-- Witness for C3 at the concrete ids 5, 136 and 9999. -/
theorem tile_encoder_totality_witness :
    (tile_id_to_string 5 ≠ "" ∧
      ¬ ("unknown_".data.isPrefixOf (tile_id_to_string 5).data)) ∧
    tile_id_to_string 136 = "unknown_" ++ toString 136 ∧
    tile_id_to_string 9999 = "unknown_" ++ toString 9999 :=
  ⟨tile_encoder_totality.1 5 (by decide),
    tile_encoder_totality.2 136 (by decide),
    tile_encoder_totality.2 9999 (by decide)⟩

theorem tile_roundtrip_aux :
    ∀ id < 136, tile_string_to_id (tile_id_to_string id) = .ok (id / 4 * 4) := by
  decide

/-- C4: decoding the encoding of any id 0..135 succeeds and yields the first
physical copy of the same tile kind, `(id / 4) * 4`; in particular the
decoded value has the same kind `v / 4 = id / 4`, only the copy index being
lost. -/
theorem tile_codec_roundtrip (id : Nat) (h : id ≤ 135) :
    tile_string_to_id (tile_id_to_string id) = .ok (id / 4 * 4) ∧
      (id / 4 * 4) / 4 = id / 4 := by
  refine ⟨tile_roundtrip_aux id (by omega), ?_⟩
  omega

/-- Witness for C4 at the concrete id 53 (a copy of the tile `5p`). -/
theorem tile_codec_roundtrip_witness :
    tile_string_to_id (tile_id_to_string 53) = .ok (53 / 4 * 4) ∧
      (53 / 4 * 4) / 4 = 53 / 4 :=
  tile_codec_roundtrip 53 (by decide)

theorem collectTiles_error (l : List String) (h : ∃ tok ∈ l, parseU32 tok = none) :
    ∃ m, collectTiles l = .error (.invalidFormat m) := by
  induction l with
  | nil => simp at h
  | cons s rest ih =>
    rcases h with ⟨tok, hmem, hnone⟩
    rcases List.mem_cons.mp hmem with heq | hmem'
    · subst heq
      exact ⟨"Invalid tile ID: " ++ tok, by simp [collectTiles, hnone]⟩
    · cases hs : parseU32 s with
      | none => exact ⟨"Invalid tile ID: " ++ s, by simp [collectTiles, hs]⟩
      | some id =>
        obtain ⟨m, hm⟩ := ih ⟨tok, hmem', hnone⟩
        exact ⟨m, by simp [collectTiles, hs, hm]⟩

/-- C5: `parse_tile_list` maps the empty string to the empty list and
`"0,4,8"` to `["1m","2m","3m"]`, and every non-empty input one of whose
comma-separated tokens fails the integer parse yields an invalid-format
error (hence no partial list is ever returned). -/
theorem parse_tile_list_spec :
    parse_tile_list "" = .ok [] ∧
    parse_tile_list "0,4,8" = .ok ["1m", "2m", "3m"] ∧
    ∀ s : String, s ≠ "" → (∃ tok ∈ splitComma s, parseU32 tok = none) →
      ∃ m, parse_tile_list s = .error (.invalidFormat m) := by
  refine ⟨by decide, by decide, ?_⟩
  intro s hne htok
  obtain ⟨m, hm⟩ := collectTiles_error (splitComma s) htok
  exact ⟨m, by simp [parse_tile_list, hne, hm]⟩

/-- Witness for C5: the failing branch at the concrete input `"0,invalid,8"`. -/
theorem parse_tile_list_spec_witness :
    parse_tile_list "" = .ok [] ∧
    parse_tile_list "0,4,8" = .ok ["1m", "2m", "3m"] ∧
    ∃ m, parse_tile_list "0,invalid,8" = .error (.invalidFormat m) :=
  ⟨parse_tile_list_spec.1, parse_tile_list_spec.2.1,
    parse_tile_list_spec.2.2 "0,invalid,8" (by decide) (by decide)⟩

theorem parserEq {p q : MjlogParser}
    (h1 : q.mjlog_version = p.mjlog_version) (h2 : q.game_id = p.game_id)
    (h3 : q.rules = p.rules) (h4 : q.players = p.players)
    (h5 : q.rounds = p.rounds) (h6 : q.current_round = p.current_round) :
    q = p := by
  cases p
  cases q
  simp_all

theorem not_in_dispatch {t : Tag} (h : dispatchNames.contains t.name = false) :
    t.name ≠ "mjloggm" ∧ t.name ≠ "GO" ∧ t.name ≠ "UN" ∧ t.name ≠ "TAIKYOKU" ∧
    t.name ≠ "INIT" ∧ t.name ≠ "N" ∧ t.name ≠ "DORA" ∧ t.name ≠ "REACH" ∧
    t.name ≠ "AGARI" ∧ t.name ≠ "RYUUKYOKU" := by
  simp [dispatchNames] at h
  tauto

theorem stepTag_eq_draw_family {p : MjlogParser} {t : Tag}
    (hnames : dispatchNames.contains t.name = false) {c : Char}
    (hhead : t.name.data.head? = some c)
    (hc : c = 'T' ∨ c = 'U' ∨ c = 'V' ∨ c = 'W') :
    stepTag p t = parse_draw p t := by
  obtain ⟨n1, n2, n3, n4, n5, n6, n7, n8, n9, n10⟩ := not_in_dispatch hnames
  simp [stepTag, n1, n2, n3, n4, n5, n6, n7, n8, n9, n10, hhead, hc]

theorem stepTag_eq_discard_family {p : MjlogParser} {t : Tag}
    (hnames : dispatchNames.contains t.name = false) {c : Char}
    (hhead : t.name.data.head? = some c)
    (hc : c = 'D' ∨ c = 'E' ∨ c = 'F' ∨ c = 'G') :
    stepTag p t = parse_discard p t := by
  obtain ⟨n1, n2, n3, n4, n5, n6, n7, n8, n9, n10⟩ := not_in_dispatch hnames
  have hc' : ¬(c = 'T' ∨ c = 'U' ∨ c = 'V' ∨ c = 'W') := by
    rcases hc with rfl | rfl | rfl | rfl <;> decide
  simp [stepTag, n1, n2, n3, n4, n5, n6, n7, n8, n9, n10, hhead, hc, hc']

theorem stepTag_unrecognized (p : MjlogParser) (t : Tag)
    (h : recognizedTag t = false) : stepTag p t = .ok p := by
  have hnames : dispatchNames.contains t.name = false := by
    simp [recognizedTag] at h
    simp [h.1]
  obtain ⟨n1, n2, n3, n4, n5, n6, n7, n8, n9, n10⟩ := not_in_dispatch hnames
  cases hhead : t.name.data.head? with
  | none => simp [stepTag, n1, n2, n3, n4, n5, n6, n7, n8, n9, n10, hhead]
  | some c =>
    have hch : seatChars.contains c = false := by
      simp [recognizedTag, hhead] at h
      simp [h.2]
    have hcs : c ≠ 'T' ∧ c ≠ 'U' ∧ c ≠ 'V' ∧ c ≠ 'W' ∧ c ≠ 'D' ∧ c ≠ 'E' ∧
        c ≠ 'F' ∧ c ≠ 'G' := by
      simp [seatChars] at hch
      tauto
    obtain ⟨c1, c2, c3, c4, c5, c6, c7, c8⟩ := hcs
    simp [stepTag, n1, n2, n3, n4, n5, n6, n7, n8, n9, n10, hhead, c1, c2, c3, c4,
      c5, c6, c7, c8]

theorem countInit_cons (t : Tag) (ts : List Tag) :
    countInit (t :: ts) = countInit ts + (if t.name = "INIT" then 1 else 0) := by
  simp [countInit, List.countP_cons, isInitTag]

theorem option_toList_len_map (o : Option Round) (f : Round → Round) :
    ((o.map f).toList).length = o.toList.length := by
  cases o <;> rfl

theorem runTags_slots {ts : List Tag} {p q : MjlogParser}
    (h : runTags p ts = .ok q) :
    q.rounds.length + q.current_round.toList.length =
      p.rounds.length + p.current_round.toList.length + countInit ts := by
  induction ts generalizing p with
  | nil =>
    simp only [runTags, Except.ok.injEq] at h
    subst h
    simp [countInit]
  | cons t rest ih =>
    unfold runTags at h
    cases hs : stepTag p t with
    | error e => rw [hs] at h; simp at h
    | ok p1 =>
      rw [hs] at h
      dsimp only at h
      by_cases hn : t.name = "INIT"
      · obtain ⟨hr, ⟨r, hcr, -⟩, -, -⟩ := stepTag_ok_init hn hs
        have hq := ih h
        rw [hr, hcr] at hq
        rw [countInit_cons, if_pos hn]
        simp at hq
        cases hcur : p.current_round <;> simp [hcur] at hq ⊢ <;> omega
      · obtain ⟨hr, hcr, -, -⟩ := stepTag_ok_nonInit hn hs
        have hq := ih h
        rw [hr, hcr, option_toList_len_map] at hq
        rw [countInit_cons, if_neg hn]
        omega

theorem runTags_append (l1 l2 : List Tag) (p : MjlogParser) :
    runTags p (l1 ++ l2) =
      match runTags p l1 with
      | .ok q => runTags q l2
      | .error e => .error e := by
  induction l1 generalizing p with
  | nil => simp [runTags]
  | cons t rest ih =>
    have hl : runTags p ((t :: rest) ++ l2) =
        (match stepTag p t with
          | .ok p' => runTags p' (rest ++ l2)
          | .error e => .error e) := rfl
    have hr : runTags p (t :: rest) =
        (match stepTag p t with
          | .ok p' => runTags p' rest
          | .error e => .error e) := rfl
    rw [hl, hr]
    cases stepTag p t <;> dsimp only
    exact ih _

theorem runTags_noInit {ts : List Tag} {p q : MjlogParser}
    (hni : ∀ u ∈ ts, u.name ≠ "INIT") (h : runTags p ts = .ok q) :
    q.rounds = p.rounds ∧
    q.current_round =
      p.current_round.map (fun r => addEvents r ((ts.map producedEvents).flatten)) ∧
    q.game_id = p.game_id := by
  induction ts generalizing p with
  | nil =>
    simp only [runTags, Except.ok.injEq] at h
    subst h
    simp [map_addEvents_nil]
  | cons t rest ih =>
    unfold runTags at h
    cases hs : stepTag p t with
    | error e => rw [hs] at h; simp at h
    | ok p1 =>
      rw [hs] at h
      dsimp only at h
      obtain ⟨hr, hcr, hg, -⟩ := stepTag_ok_nonInit (hni t (by simp)) hs
      obtain ⟨ihr, ihc, ihg⟩ := ih (fun u hu => hni u (by simp [hu])) h
      refine ⟨ihr.trans hr, ?_, ihg.trans hg⟩
      rw [ihc, hcr]
      cases p.current_round <;> simp [addEvents_append]

theorem runTags_seats {ts : List Tag} {p q : MjlogParser}
    (h : runTags p ts = .ok q) :
    q.players.map Player.seat =
      p.players.map Player.seat ++ (ts.map unSeatBlock).flatten := by
  induction ts generalizing p with
  | nil =>
    simp only [runTags, Except.ok.injEq] at h
    subst h
    simp
  | cons t rest ih =>
    unfold runTags at h
    cases hs : stepTag p t with
    | error e => rw [hs] at h; simp at h
    | ok p1 =>
      rw [hs] at h
      dsimp only at h
      have ihq := ih h
      by_cases hn : t.name = "INIT"
      · obtain ⟨-, -, hp, -⟩ := stepTag_ok_init hn hs
        rw [hp] at ihq
        rw [ihq]
        have hb : unSeatBlock t = [] := by simp [unSeatBlock, hn]
        simp [hb]
      · obtain ⟨-, -, -, hp⟩ := stepTag_ok_nonInit hn hs
        rw [ihq, hp]
        simp

theorem flatten_unSeats_of_count_zero {ts : List Tag} (h : countUN ts = 0) :
    (ts.map unSeatBlock).flatten = [] := by
  induction ts with
  | nil => rfl
  | cons t rest ih =>
    rw [countUN, List.countP_cons] at h
    by_cases hn : t.name = "UN"
    · rw [if_pos (by simp [hn])] at h
      exact absurd h (by omega)
    · rw [if_neg (by simp [hn])] at h
      have h0 : countUN rest = 0 := by rw [countUN]; omega
      simp [unSeatBlock, hn, ih h0]

theorem flatten_unSeats_of_count_one {ts : List Tag} (h : countUN ts = 1) :
    (ts.map unSeatBlock).flatten = [0, 1, 2, 3] := by
  induction ts with
  | nil => simp [countUN] at h
  | cons t rest ih =>
    rw [countUN, List.countP_cons] at h
    by_cases hn : t.name = "UN"
    · rw [if_pos (by simp [hn])] at h
      have h0 : countUN rest = 0 := by rw [countUN]; omega
      simp [unSeatBlock, hn, flatten_unSeats_of_count_zero h0]
    · rw [if_neg (by simp [hn])] at h
      have h1 : countUN rest = 1 := by rw [countUN]; omega
      simp [unSeatBlock, hn, ih h1]

theorem parse_mjlog_ok_elim {gid : String} {ts : List Tag} {o : ParserOutput}
    (h : parse_mjlog gid ts = .ok o) :
    ∃ q, runTags (MjlogParser.new gid) ts = .ok q ∧
      o = into_output (sealRounds q) := by
  unfold parse_mjlog MjlogParser.run at h
  cases hr : runTags (MjlogParser.new gid) ts with
  | error e => rw [hr] at h; simp [Except.map] at h
  | ok q =>
    rw [hr] at h
    simp only [Except.map, Except.ok.injEq] at h
    exact ⟨q, rfl, h.symm⟩

/-- C9 (counterexample): the empty record parses successfully and its player
list is empty, not of length 4. -/
theorem empty_record_parses_with_no_players :
    parse_mjlog "G" [] = .ok ⟨"", "G", ⟨0, none⟩, [], []⟩ ∧
      (⟨"", "G", ⟨0, none⟩, [], []⟩ : ParserOutput).players.length = 0 :=
  ⟨rfl, rfl⟩

/-- C9 (amended): when the record contains exactly one roster (`UN`) tag and
the parse succeeds, the player list has length exactly 4 and the seats are
0,1,2,3 in order.  (The parser emits four players per roster tag and none
when the tag is absent, so the original unconditional invariant fails on
rosterless records.) -/
theorem single_roster_four_players (gid : String) (ts : List Tag) (o : ParserOutput)
    (hok : parse_mjlog gid ts = .ok o) (hun : countUN ts = 1) :
    o.players.length = 4 ∧ o.players.map Player.seat = [0, 1, 2, 3] := by
  obtain ⟨q, hr, rfl⟩ := parse_mjlog_ok_elim hok
  have hseats := runTags_seats hr
  simp only [MjlogParser.new, List.map_nil, List.nil_append] at hseats
  rw [flatten_unSeats_of_count_one hun] at hseats
  have hplayers : (into_output (sealRounds q)).players = q.players := rfl
  constructor
  · have hlen := congrArg List.length hseats
    simpa [hplayers] using hlen
  · rw [hplayers]
    exact hseats

/-- Witness for C9's amended theorem at a concrete one-roster record. -/
theorem single_roster_four_players_witness :
    ∃ o, parse_mjlog "G" [sampleUnTag] = .ok o ∧
      o.players.length = 4 ∧ o.players.map Player.seat = [0, 1, 2, 3] := by
  refine ⟨⟨"", "G", ⟨0, none⟩,
    [⟨0, "Player1", 1, 1500, "M"⟩, ⟨1, "Player2", 2, 1600, "M"⟩,
      ⟨2, "Player3", 3, 1700, "M"⟩, ⟨3, "Player4", 4, 1800, "M"⟩], []⟩, ?_, ?_⟩
  · rfl
  · exact single_roster_four_players "G" [sampleUnTag] _ (by rfl) (by decide)

/-- C1: the rounds of a successful parse, counted and the last one's
events. -/
theorem rounds_per_init (gid : String) (pre post : List Tag) (t : Tag)
    (o : ParserOutput) (hinit : t.name = "INIT")
    (hpost : ∀ u ∈ post, u.name ≠ "INIT")
    (hok : parse_mjlog gid (pre ++ t :: post) = .ok o) :
    o.rounds.length = countInit (pre ++ t :: post) ∧
    ∃ last, o.rounds.getLast? = some last ∧
      last.events = (post.map producedEvents).flatten := by
  obtain ⟨q, hr, rfl⟩ := parse_mjlog_ok_elim hok
  constructor
  · have hslots := runTags_slots hr
    simp [MjlogParser.new] at hslots
    have hrq : (into_output (sealRounds q)).rounds =
        q.rounds ++ q.current_round.toList := rfl
    rw [hrq, List.length_append]
    simpa using hslots
  · rw [runTags_append pre (t :: post)] at hr
    cases hp : runTags (MjlogParser.new gid) pre with
    | error e => rw [hp] at hr; simp at hr
    | ok pm =>
      rw [hp] at hr
      dsimp only at hr
      unfold runTags at hr
      cases hsm : stepTag pm t with
      | error e => rw [hsm] at hr; simp at hr
      | ok p1 =>
        rw [hsm] at hr
        dsimp only at hr
        obtain ⟨-, ⟨r0, hc0, hev0⟩, -, -⟩ := stepTag_ok_init hinit hsm
        obtain ⟨hqr, hqc, -⟩ := runTags_noInit hpost hr
        rw [hc0] at hqc
        simp only [Option.map_some'] at hqc
        have hrounds : (into_output (sealRounds q)).rounds =
            q.rounds ++ [addEvents r0 ((post.map producedEvents).flatten)] := by
          simp [into_output, sealRounds, hqc]
        refine ⟨addEvents r0 ((post.map producedEvents).flatten), ?_, ?_⟩
        · rw [hrounds, List.getLast?_concat]
        · simp [addEvents, hev0]

/-- Witness for C1 at a concrete record with one initialization tag followed
by one draw tag. -/
theorem rounds_per_init_witness :
    (⟨"", "G", ⟨0, none⟩, [],
      [⟨"Round 1", 0,
        ⟨0, 0, 0, (1, 2), 52, [250, 250, 250, 250],
          [["1m", "2m"], ["1m", "2m"], ["1m", "2m"], ["1m", "2m"]]⟩,
        [Event.draw 0 "5p"]⟩]⟩ : ParserOutput).rounds.length =
        countInit ([] ++ sampleInitTag :: [⟨"T52", []⟩]) ∧
    ∃ last, (⟨"", "G", ⟨0, none⟩, [],
      [⟨"Round 1", 0,
        ⟨0, 0, 0, (1, 2), 52, [250, 250, 250, 250],
          [["1m", "2m"], ["1m", "2m"], ["1m", "2m"], ["1m", "2m"]]⟩,
        [Event.draw 0 "5p"]⟩]⟩ : ParserOutput).rounds.getLast? = some last ∧
      last.events = (([⟨"T52", []⟩] : List Tag).map producedEvents).flatten :=
  rounds_per_init "G" [] [⟨"T52", []⟩] sampleInitTag _ rfl (by decide) (by rfl)

theorem runTags_skip {t : Tag} (h : recognizedTag t = false)
    (pre post : List Tag) (p : MjlogParser) :
    runTags p (pre ++ t :: post) = runTags p (pre ++ post) := by
  induction pre generalizing p with
  | nil =>
    show runTags p (t :: post) = runTags p post
    have hstep : runTags p (t :: post) =
        (match stepTag p t with
          | .ok p' => runTags p' post
          | .error e => .error e) := rfl
    rw [hstep, stepTag_unrecognized p t h]
  | cons u rest ih =>
    have hl : runTags p ((u :: rest) ++ t :: post) =
        (match stepTag p u with
          | .ok p' => runTags p' (rest ++ t :: post)
          | .error e => .error e) := rfl
    have hr : runTags p ((u :: rest) ++ post) =
        (match stepTag p u with
          | .ok p' => runTags p' (rest ++ post)
          | .error e => .error e) := rfl
    rw [hl, hr]
    cases stepTag p u <;> dsimp only
    exact ih _

/-- C6: an unrecognized tag never aborts the parse and produces no event: a
single step on it leaves the parser state untouched, and at the stream
level deleting the tag does not change the parse result at all. -/
theorem unrecognized_tag_ignored (gid : String) (p : MjlogParser) (t : Tag)
    (pre post : List Tag) (h : recognizedTag t = false) :
    stepTag p t = .ok p ∧
    parse_mjlog gid (pre ++ t :: post) = parse_mjlog gid (pre ++ post) := by
  refine ⟨stepTag_unrecognized p t h, ?_⟩
  unfold parse_mjlog MjlogParser.run
  rw [runTags_skip h]

/-- Witness for C6 at the concrete tag `ANOTHER_UNKNOWN` (from the repo's
own test), inserted before an initialization tag. -/
theorem unrecognized_tag_ignored_witness :
    stepTag (MjlogParser.new "G") ⟨"ANOTHER_UNKNOWN", []⟩ =
      .ok (MjlogParser.new "G") ∧
    parse_mjlog "G" ([] ++ ⟨"ANOTHER_UNKNOWN", []⟩ :: [sampleInitTag]) =
      parse_mjlog "G" ([] ++ [sampleInitTag]) :=
  unrecognized_tag_ignored "G" (MjlogParser.new "G") ⟨"ANOTHER_UNKNOWN", []⟩
    [] [sampleInitTag] (by decide)

/-- C7 (counterexample): a dora-reveal tag with a malformed `hai` attribute
aborts the whole parse even though no round is open, contradicting the
claim that gameplay tags in the Idle state are always silently ignored. -/
theorem idle_dora_bad_attr_aborts :
    parse_mjlog "G" [⟨"DORA", [("hai", "x")]⟩] = .error .parseInt := by rfl

theorem draw_ok_idle_eq {p : MjlogParser} {t : Tag} {q : MjlogParser}
    (hidle : p.current_round = none) (h : parse_draw p t = .ok q) : q = p := by
  obtain ⟨h1, h2, h3, h4, h5, h6⟩ := parse_draw_ok h
  refine parserEq h4 h3 h5 h2 h1 ?_
  rw [h6, hidle]
  rfl

theorem discard_ok_idle_eq {p : MjlogParser} {t : Tag} {q : MjlogParser}
    (hidle : p.current_round = none) (h : parse_discard p t = .ok q) : q = p := by
  obtain ⟨h1, h2, h3, h4, h5, h6⟩ := parse_discard_ok h
  refine parserEq h4 h3 h5 h2 h1 ?_
  rw [h6, hidle]
  rfl

theorem parse_draw_idle_ok {p : MjlogParser} {t : Tag}
    (hidle : p.current_round = none) {c : Char}
    (hhead : t.name.data.head? = some c)
    (hc : c = 'T' ∨ c = 'U' ∨ c = 'V' ∨ c = 'W') : parse_draw p t = .ok p := by
  have hs : ∃ s, drawSeat t = .ok s := by
    rcases hc with rfl | rfl | rfl | rfl
    · exact ⟨0, by simp [drawSeat, hhead]⟩
    · exact ⟨1, by simp [drawSeat, hhead]⟩
    · exact ⟨2, by simp [drawSeat, hhead]⟩
    · exact ⟨3, by simp [drawSeat, hhead]⟩
  obtain ⟨s, hs⟩ := hs
  unfold parse_draw
  rw [hs, except_bind_ok, hidle]

theorem parse_discard_idle_ok {p : MjlogParser} {t : Tag}
    (hidle : p.current_round = none) {c : Char}
    (hhead : t.name.data.head? = some c)
    (hc : c = 'D' ∨ c = 'E' ∨ c = 'F' ∨ c = 'G') : parse_discard p t = .ok p := by
  have hs : ∃ s, discardSeat t = .ok s := by
    rcases hc with rfl | rfl | rfl | rfl
    · exact ⟨0, by simp [discardSeat, hhead]⟩
    · exact ⟨1, by simp [discardSeat, hhead]⟩
    · exact ⟨2, by simp [discardSeat, hhead]⟩
    · exact ⟨3, by simp [discardSeat, hhead]⟩
  obtain ⟨s, hs⟩ := hs
  unfold parse_discard
  rw [hs, except_bind_ok, hidle]

/-- C7 (amended): while no round is open, a gameplay tag appends no event
and changes no state whenever its handler succeeds, and draw/discard tags
always succeed unchanged; however the call, dora, reach, win and
exhaustive-draw handlers still parse their numeric attributes in the Idle
state, so a malformed attribute there aborts the parse (see the
counterexample). -/
theorem idle_gameplay_tags (p : MjlogParser) (t : Tag) (q : MjlogParser)
    (hidle : p.current_round = none) :
    (isGameplayTag t = true → stepTag p t = .ok q → q = p) ∧
    (isDrawDiscardTag t = true → stepTag p t = .ok p) := by
  have hdd_elim : isDrawDiscardTag t = true →
      dispatchNames.contains t.name = false ∧
      ∃ c, t.name.data.head? = some c ∧
        ((c = 'T' ∨ c = 'U' ∨ c = 'V' ∨ c = 'W') ∨
         (c = 'D' ∨ c = 'E' ∨ c = 'F' ∨ c = 'G')) := by
    intro hdd
    simp only [isDrawDiscardTag, Bool.and_eq_true, Bool.not_eq_true'] at hdd
    refine ⟨hdd.1, ?_⟩
    have h2 := hdd.2
    cases hhead : t.name.data.head? with
    | none => rw [hhead] at h2; simp at h2
    | some c =>
      rw [hhead] at h2
      refine ⟨c, rfl, ?_⟩
      simp [seatChars] at h2
      tauto
  constructor
  · intro hg h
    simp only [isGameplayTag, Bool.or_eq_true, decide_eq_true_eq] at hg
    rcases hg with ((((h5 | h6) | h7) | h8) | h9) | hdd
    · rw [show stepTag p t = parse_naki p t from by simp [stepTag, h5]] at h
      obtain ⟨who, -, rfl⟩ := parse_naki_ok h
      rw [pushEvent_eq_pushEvents, pushEvents_idle _ _ hidle]
    · rw [show stepTag p t = parse_dora p t from by simp [stepTag, h6]] at h
      rw [parse_dora_ok h, pushEvents_idle _ _ hidle]
    · rw [show stepTag p t = parse_reach p t from by simp [stepTag, h7]] at h
      obtain ⟨x, -, rfl⟩ := parse_reach_ok h
      rw [pushEvent_eq_pushEvents, pushEvents_idle _ _ hidle]
    · rw [show stepTag p t = parse_agari p t from by simp [stepTag, h8]] at h
      obtain ⟨x, -, rfl⟩ := parse_agari_ok h
      rw [pushEvent_eq_pushEvents, pushEvents_idle _ _ hidle]
    · rw [show stepTag p t = parse_ryuukyoku p t from by simp [stepTag, h9]] at h
      obtain ⟨x, -, rfl⟩ := parse_ryuukyoku_ok h
      rw [pushEvent_eq_pushEvents, pushEvents_idle _ _ hidle]
    · obtain ⟨hnames, c, hhead, hc⟩ := hdd_elim hdd
      rcases hc with hTU | hDE
      · rw [stepTag_eq_draw_family hnames hhead hTU] at h
        exact draw_ok_idle_eq hidle h
      · rw [stepTag_eq_discard_family hnames hhead hDE] at h
        exact discard_ok_idle_eq hidle h
  · intro hdd
    obtain ⟨hnames, c, hhead, hc⟩ := hdd_elim hdd
    rcases hc with hTU | hDE
    · rw [stepTag_eq_draw_family hnames hhead hTU]
      exact parse_draw_idle_ok hidle hhead hTU
    · rw [stepTag_eq_discard_family hnames hhead hDE]
      exact parse_discard_idle_ok hidle hhead hDE

/-- Witness for the amended C7 at a concrete reach tag and a concrete draw
tag in the Idle state. -/
theorem idle_gameplay_tags_witness :
    (isGameplayTag ⟨"REACH", [("who", "0"), ("step", "1")]⟩ = true →
      stepTag (MjlogParser.new "G") ⟨"REACH", [("who", "0"), ("step", "1")]⟩ =
        .ok (MjlogParser.new "G") →
      MjlogParser.new "G" = MjlogParser.new "G") ∧
    (isDrawDiscardTag ⟨"T52", []⟩ = true →
      stepTag (MjlogParser.new "G") ⟨"T52", []⟩ = .ok (MjlogParser.new "G")) :=
  ⟨(idle_gameplay_tags (MjlogParser.new "G") ⟨"REACH", [("who", "0"), ("step", "1")]⟩
      (MjlogParser.new "G") rfl).1,
    (idle_gameplay_tags (MjlogParser.new "G") ⟨"T52", []⟩
      (MjlogParser.new "G") rfl).2⟩

/-- C8: evaluated at a call tag with a concrete meld value inside an open
round, the builder emits a pon event whose tiles are the fabricated
placeholders `["1m","1m","1m"]` and whose `from` seat is the constant 0 —
only the acting seat (`who = 1`) comes from the record; the meld integer
12345 is never decoded. -/
theorem naki_emits_placeholder_pon :
    parse_mjlog "G" [sampleInitTag, sampleNakiTag] =
      .ok ⟨"", "G", ⟨0, none⟩, [],
        [⟨"Round 1", 0,
          ⟨0, 0, 0, (1, 2), 52, [250, 250, 250, 250],
            [["1m", "2m"], ["1m", "2m"], ["1m", "2m"], ["1m", "2m"]]⟩,
          [Event.pon 1 ["1m", "1m", "1m"] 0]⟩]⟩ := by rfl

theorem exists_error_bind {α β : Type} {m : Except ParserError α}
    {f : α → Except ParserError β} (hf : ∀ v, ∃ e, f v = .error e) :
    ∃ e, (m >>= f) = .error e := by
  cases m with
  | error e => exact ⟨e, rfl⟩
  | ok v => simpa [except_bind_ok] using hf v

theorem initLocals_seed_ten {attrs : List (String × String)}
    {s0 t0 : String} {o0 : Nat} {h0 : List String}
    {x : String × String × Nat × List String}
    (h : initLocals attrs s0 t0 o0 h0 = .ok x) :
    x.1 = attrs.foldl (fun v a => if a.1 = "seed" then a.2 else v) s0 ∧
    x.2.1 = attrs.foldl (fun v a => if a.1 = "ten" then a.2 else v) t0 := by
  induction attrs generalizing s0 t0 o0 h0 with
  | nil =>
    simp only [initLocals, Except.ok.injEq] at h
    subst h
    simp
  | cons a rest ih =>
    unfold initLocals at h
    split_ifs at h with h1 h2 h3 h4
    · obtain ⟨ihs, iht⟩ := ih h
      refine ⟨?_, ?_⟩ <;> simp [h1, ihs, iht]
    · obtain ⟨ihs, iht⟩ := ih h
      refine ⟨?_, ?_⟩ <;> simp [h1, h2, ihs, iht]
    · cases hp : parseU8 a.2 with
      | some v =>
        rw [hp] at h
        obtain ⟨ihs, iht⟩ := ih h
        refine ⟨?_, ?_⟩ <;> simp [h1, h2, ihs, iht]
      | none => rw [hp] at h; simp at h
    · obtain ⟨ihs, iht⟩ := ih h
      refine ⟨?_, ?_⟩ <;> simp [h1, h2, ihs, iht]
    · obtain ⟨ihs, iht⟩ := ih h
      refine ⟨?_, ?_⟩ <;> simp [h1, h2, ihs, iht]

theorem initLocals_total {attrs : List (String × String)}
    (hoya : ∀ a ∈ attrs, a.1 = "oya" → (parseU8 a.2).isSome)
    (s0 t0 : String) (o0 : Nat) (h0 : List String) :
    ∃ x, initLocals attrs s0 t0 o0 h0 = .ok x := by
  induction attrs generalizing s0 t0 o0 h0 with
  | nil => exact ⟨_, rfl⟩
  | cons a rest ih =>
    have hrest : ∀ a' ∈ rest, a'.1 = "oya" → (parseU8 a'.2).isSome :=
      fun a' ha' => hoya a' (by simp [ha'])
    unfold initLocals
    split_ifs with h1 h2 h3 h4
    · exact ih hrest _ _ _ _
    · exact ih hrest _ _ _ _
    · obtain ⟨v, hv⟩ := Option.isSome_iff_exists.mp (hoya a (by simp) h3)
      rw [hv]
      exact ih hrest _ _ _ _
    · exact ih hrest _ _ _ _
    · exact ih hrest _ _ _ _

theorem initResult_short_error {t : Tag}
    (hshort : (splitComma (seedStr t)).length < 6 ∨
      (splitComma (tenStr t)).length < 4) :
    ∃ e, initResult t = .error e := by
  unfold initResult
  cases hi : initLocals t.attrs "" "" 0 ["", "", "", ""] with
  | error e => exact ⟨e, by rw [except_bind_error]⟩
  | ok x =>
    obtain ⟨s, tn, oya, hd⟩ := x
    obtain ⟨hs, htn⟩ := initLocals_seed_ten hi
    have hseq : s = seedStr t := hs
    have htq : tn = tenStr t := htn
    rw [except_bind_ok]
    dsimp only
    by_cases h6 : (splitComma s).length < 6
    · exact ⟨_, by rw [if_pos h6]⟩
    · rw [if_neg h6]
      have hts : (splitComma tn).length < 4 := by
        rcases hshort with hA | hB
        · rw [← hseq] at hA
          exact absurd hA h6
        · rw [← htq] at hB
          exact hB
      apply exists_error_bind; intro v1
      apply exists_error_bind; intro v2
      apply exists_error_bind; intro v3
      apply exists_error_bind; intro v4
      apply exists_error_bind; intro v5
      apply exists_error_bind; intro v6
      dsimp only
      exact ⟨_, by rw [if_pos hts]⟩

theorem parse_init_short_error {t : Tag} (p : MjlogParser)
    (hshort : (splitComma (seedStr t)).length < 6 ∨
      (splitComma (tenStr t)).length < 4) :
    ∃ e, parse_init p t = .error e := by
  obtain ⟨e, he⟩ := initResult_short_error hshort
  exact ⟨e, by unfold parse_init; rw [he]; rfl⟩

theorem runTags_mem_error {ts : List Tag} {t : Tag} (hmem : t ∈ ts)
    (herr : ∀ p', ∃ e, stepTag p' t = .error e) (p : MjlogParser) :
    ∃ e, runTags p ts = .error e := by
  induction ts generalizing p with
  | nil => simp at hmem
  | cons u rest ih =>
    have hrw : runTags p (u :: rest) =
        (match stepTag p u with
          | .ok p' => runTags p' rest
          | .error e => .error e) := rfl
    rcases List.mem_cons.mp hmem with rfl | hmem'
    · obtain ⟨e, he⟩ := herr p
      exact ⟨e, by rw [hrw, he]⟩
    · cases hs : stepTag p u with
      | error e => exact ⟨e, by rw [hrw, hs]⟩
      | ok p1 =>
        obtain ⟨e, he⟩ := ih hmem' p1
        refine ⟨e, ?_⟩
        rw [hrw, hs]
        exact he

/-- C2: an initialization tag whose packed `seed` list has fewer than 6
fields or whose packed `ten` (score) list has fewer than 4 fields makes the
whole parse fail, returning no document; moreover, whenever the handler's
attribute loop succeeds (every `oya` attribute parses) and the seed fields
themselves are numeric, the error raised by `parse_init` on such a tag is
precisely one of the two invalid-format errors of the length checks. -/
theorem init_short_packed_fields_fatal (gid : String) (ts : List Tag) (t : Tag)
    (p : MjlogParser) (hmem : t ∈ ts) (hname : t.name = "INIT")
    (hshort : (splitComma (seedStr t)).length < 6 ∨
      (splitComma (tenStr t)).length < 4) :
    (∃ e, parse_mjlog gid ts = .error e) ∧
    (oyaAttrsOk t →
      ((splitComma (seedStr t)).length ≥ 6 →
        ∀ i < 6, (parseU32 ((splitComma (seedStr t)).getD i "")).isSome) →
      ∃ m, parse_init p t = .error (.invalidFormat m) ∧
        (m = "Invalid seed format" ∨ m = "Invalid ten format")) := by
  constructor
  · have herr : ∀ p', ∃ e, stepTag p' t = .error e := by
      intro p'
      have hst : stepTag p' t = parse_init p' t := by simp [stepTag, hname]
      rw [hst]
      exact parse_init_short_error p' hshort
    obtain ⟨e, he⟩ := runTags_mem_error hmem herr (MjlogParser.new gid)
    exact ⟨e, by unfold parse_mjlog MjlogParser.run; rw [he]; rfl⟩
  · intro hoya hparse
    obtain ⟨x, hx⟩ := initLocals_total hoya "" "" 0 ["", "", "", ""]
    obtain ⟨s, tn, oya, hd⟩ := x
    obtain ⟨hs, htn⟩ := initLocals_seed_ten hx
    have hseq : s = seedStr t := hs
    have htq : tn = tenStr t := htn
    by_cases h6 : (splitComma s).length < 6
    · refine ⟨"Invalid seed format", ?_, Or.inl rfl⟩
      unfold parse_init initResult
      rw [hx, except_bind_ok]
      dsimp only
      rw [if_pos h6]
      rfl
    · have hge : (splitComma (seedStr t)).length ≥ 6 := by
        rw [← hseq]
        omega
      have hall : ∀ i, i < 6 → (parseU32 ((splitComma s).getD i "")).isSome := by
        rw [hseq]
        exact hparse hge
      have hts : (splitComma tn).length < 4 := by
        rcases hshort with hA | hB
        · rw [← hseq] at hA
          exact absurd hA h6
        · rw [← htq] at hB
          exact hB
      obtain ⟨v0, hv0⟩ := Option.isSome_iff_exists.mp (hall 0 (by omega))
      obtain ⟨v1, hv1⟩ := Option.isSome_iff_exists.mp (hall 1 (by omega))
      obtain ⟨v2, hv2⟩ := Option.isSome_iff_exists.mp (hall 2 (by omega))
      obtain ⟨v3, hv3⟩ := Option.isSome_iff_exists.mp (hall 3 (by omega))
      obtain ⟨v4, hv4⟩ := Option.isSome_iff_exists.mp (hall 4 (by omega))
      obtain ⟨v5, hv5⟩ := Option.isSome_iff_exists.mp (hall 5 (by omega))
      refine ⟨"Invalid ten format", ?_, Or.inr rfl⟩
      unfold parse_init initResult
      rw [hx, except_bind_ok]
      dsimp only
      rw [if_neg h6]
      rw [show expectU32 ((splitComma s).getD 0 "") = .ok v0 from by
        unfold expectU32; rw [hv0], except_bind_ok]
      rw [show expectU32 ((splitComma s).getD 1 "") = .ok v1 from by
        unfold expectU32; rw [hv1], except_bind_ok]
      rw [show expectU32 ((splitComma s).getD 2 "") = .ok v2 from by
        unfold expectU32; rw [hv2], except_bind_ok]
      rw [show expectU32 ((splitComma s).getD 3 "") = .ok v3 from by
        unfold expectU32; rw [hv3], except_bind_ok]
      rw [show expectU32 ((splitComma s).getD 4 "") = .ok v4 from by
        unfold expectU32; rw [hv4], except_bind_ok]
      rw [show expectU32 ((splitComma s).getD 5 "") = .ok v5 from by
        unfold expectU32; rw [hv5], except_bind_ok]
      rw [if_pos hts]
      rfl

/-- Witness for C2 at a concrete record whose initialization tag carries
only 2 of the required 4 score entries. -/
theorem init_short_packed_fields_fatal_witness :
    (∃ e, parse_mjlog "G"
      [⟨"INIT", [("seed", "0,0,0,1,2,52"), ("ten", "250,250")]⟩] = .error e) ∧
    (∃ m, parse_init (MjlogParser.new "G")
        ⟨"INIT", [("seed", "0,0,0,1,2,52"), ("ten", "250,250")]⟩ =
          .error (.invalidFormat m) ∧
      (m = "Invalid seed format" ∨ m = "Invalid ten format")) := by
  have h := init_short_packed_fields_fatal "G"
    [⟨"INIT", [("seed", "0,0,0,1,2,52"), ("ten", "250,250")]⟩]
    ⟨"INIT", [("seed", "0,0,0,1,2,52"), ("ten", "250,250")]⟩
    (MjlogParser.new "G") (by decide) rfl (by decide)
  exact ⟨h.1, h.2 (by unfold oyaAttrsOk; decide) (by decide)⟩

theorem pushEvent_gid (p : MjlogParser) (g : String) (e : Event) :
    pushEvent (setPGid p g) e = setPGid (pushEvent p e) g := by
  obtain ⟨mv, g0, ru, pl, ro, cu⟩ := p
  cases cu <;> rfl

theorem parse_mjloggm_gid (p : MjlogParser) (g : String) (t : Tag) :
    parse_mjloggm (setPGid p g) t = (parse_mjloggm p t).map (fun q => setPGid q g) := rfl

theorem parse_go_gid (p : MjlogParser) (g : String) (t : Tag) :
    parse_go (setPGid p g) t = (parse_go p t).map (fun q => setPGid q g) := by
  unfold parse_go
  cases goLocals t.attrs 0 none <;> rfl

theorem parse_un_gid (p : MjlogParser) (g : String) (t : Tag) :
    parse_un (setPGid p g) t = (parse_un p t).map (fun q => setPGid q g) := by
  unfold parse_un
  cases unLocals t.attrs ["", "", "", ""] [0, 0, 0, 0] [0, 0, 0, 0] ["", "", "", ""] <;> rfl

theorem parse_taikyoku_gid (p : MjlogParser) (g : String) (t : Tag) :
    parse_taikyoku (setPGid p g) t = (parse_taikyoku p t).map (fun q => setPGid q g) := by
  unfold parse_taikyoku
  cases taikyokuCheck t.attrs <;> rfl

theorem parse_init_gid (p : MjlogParser) (g : String) (t : Tag) :
    parse_init (setPGid p g) t = (parse_init p t).map (fun q => setPGid q g) := by
  unfold parse_init
  cases initResult t <;> rfl

theorem parse_naki_gid (p : MjlogParser) (g : String) (t : Tag) :
    parse_naki (setPGid p g) t = (parse_naki p t).map (fun q => setPGid q g) := by
  unfold parse_naki
  cases nakiLocals t.attrs 0 <;> simp [Except.map, pushEvent_gid]

theorem parse_reach_gid (p : MjlogParser) (g : String) (t : Tag) :
    parse_reach (setPGid p g) t = (parse_reach p t).map (fun q => setPGid q g) := by
  unfold parse_reach
  cases reachLocals t.attrs 0 1 [0, 0, 0, 0] <;> simp [Except.map, pushEvent_gid]

theorem parse_agari_gid (p : MjlogParser) (g : String) (t : Tag) :
    parse_agari (setPGid p g) t = (parse_agari p t).map (fun q => setPGid q g) := by
  unfold parse_agari
  cases agariLocals t.attrs 0 0 0 0 [] [0, 0, 0, 0] <;> simp [Except.map, pushEvent_gid]

theorem parse_ryuukyoku_gid (p : MjlogParser) (g : String) (t : Tag) :
    parse_ryuukyoku (setPGid p g) t = (parse_ryuukyoku p t).map (fun q => setPGid q g) := by
  unfold parse_ryuukyoku
  cases ryuukyokuLocals t.attrs .normal [0, 0, 0, 0] <;> simp [Except.map, pushEvent_gid]

theorem doraFold_gid (l : List (String × String)) (p : MjlogParser) (g : String) :
    doraFold (setPGid p g) l = (doraFold p l).map (fun q => setPGid q g) := by
  induction l generalizing p with
  | nil => rfl
  | cons a rest ih =>
    unfold doraFold
    by_cases ha : a.1 = "hai"
    · rw [if_pos ha, if_pos ha]
      cases parseU32 a.2 with
      | none => rfl
      | some id =>
        dsimp only
        rw [pushEvent_gid]
        exact ih _
    · rw [if_neg ha, if_neg ha]
      exact ih _

theorem parse_dora_gid (p : MjlogParser) (g : String) (t : Tag) :
    parse_dora (setPGid p g) t = (parse_dora p t).map (fun q => setPGid q g) :=
  doraFold_gid t.attrs p g

theorem parse_draw_gid (p : MjlogParser) (g : String) (t : Tag) :
    parse_draw (setPGid p g) t = (parse_draw p t).map (fun q => setPGid q g) := by
  obtain ⟨mv, g0, ru, pl, ro, cu⟩ := p
  unfold parse_draw
  cases drawSeat t with
  | error e => rfl
  | ok seat =>
    cases cu with
    | none => rfl
    | some r =>
      cases drawTileId t with
      | error e => rfl
      | ok tid => cases tid <;> rfl

theorem parse_discard_gid (p : MjlogParser) (g : String) (t : Tag) :
    parse_discard (setPGid p g) t = (parse_discard p t).map (fun q => setPGid q g) := by
  obtain ⟨mv, g0, ru, pl, ro, cu⟩ := p
  unfold parse_discard
  cases discardSeat t with
  | error e => rfl
  | ok seat =>
    cases cu with
    | none => rfl
    | some r =>
      cases drawTileId t with
      | error e => rfl
      | ok tid => cases tid <;> rfl

theorem stepTag_gid (p : MjlogParser) (g : String) (t : Tag) :
    stepTag (setPGid p g) t = (stepTag p t).map (fun q => setPGid q g) := by
  by_cases h1 : t.name = "mjloggm"
  · rw [show stepTag (setPGid p g) t = parse_mjloggm (setPGid p g) t from by
      simp [stepTag, h1]]
    rw [show stepTag p t = parse_mjloggm p t from by simp [stepTag, h1]]
    exact parse_mjloggm_gid p g t
  by_cases h2 : t.name = "GO"
  · rw [show stepTag (setPGid p g) t = parse_go (setPGid p g) t from by
      simp [stepTag, h2]]
    rw [show stepTag p t = parse_go p t from by simp [stepTag, h2]]
    exact parse_go_gid p g t
  by_cases h3 : t.name = "UN"
  · rw [show stepTag (setPGid p g) t = parse_un (setPGid p g) t from by
      simp [stepTag, h3]]
    rw [show stepTag p t = parse_un p t from by simp [stepTag, h3]]
    exact parse_un_gid p g t
  by_cases h4 : t.name = "TAIKYOKU"
  · rw [show stepTag (setPGid p g) t = parse_taikyoku (setPGid p g) t from by
      simp [stepTag, h4]]
    rw [show stepTag p t = parse_taikyoku p t from by simp [stepTag, h4]]
    exact parse_taikyoku_gid p g t
  by_cases h5 : t.name = "INIT"
  · rw [show stepTag (setPGid p g) t = parse_init (setPGid p g) t from by
      simp [stepTag, h5]]
    rw [show stepTag p t = parse_init p t from by simp [stepTag, h5]]
    exact parse_init_gid p g t
  by_cases h6 : t.name = "N"
  · rw [show stepTag (setPGid p g) t = parse_naki (setPGid p g) t from by
      simp [stepTag, h6]]
    rw [show stepTag p t = parse_naki p t from by simp [stepTag, h6]]
    exact parse_naki_gid p g t
  by_cases h7 : t.name = "DORA"
  · rw [show stepTag (setPGid p g) t = parse_dora (setPGid p g) t from by
      simp [stepTag, h7]]
    rw [show stepTag p t = parse_dora p t from by simp [stepTag, h7]]
    exact parse_dora_gid p g t
  by_cases h8 : t.name = "REACH"
  · rw [show stepTag (setPGid p g) t = parse_reach (setPGid p g) t from by
      simp [stepTag, h8]]
    rw [show stepTag p t = parse_reach p t from by simp [stepTag, h8]]
    exact parse_reach_gid p g t
  by_cases h9 : t.name = "AGARI"
  · rw [show stepTag (setPGid p g) t = parse_agari (setPGid p g) t from by
      simp [stepTag, h9]]
    rw [show stepTag p t = parse_agari p t from by simp [stepTag, h9]]
    exact parse_agari_gid p g t
  by_cases h10 : t.name = "RYUUKYOKU"
  · rw [show stepTag (setPGid p g) t = parse_ryuukyoku (setPGid p g) t from by
      simp [stepTag, h10]]
    rw [show stepTag p t = parse_ryuukyoku p t from by simp [stepTag, h10]]
    exact parse_ryuukyoku_gid p g t
  cases hhead : t.name.data.head? with
  | none =>
    rw [show stepTag (setPGid p g) t = .ok (setPGid p g) from by
      simp [stepTag, h1, h2, h3, h4, h5, h6, h7, h8, h9, h10, hhead]]
    rw [show stepTag p t = .ok p from by
      simp [stepTag, h1, h2, h3, h4, h5, h6, h7, h8, h9, h10, hhead]]
    rfl
  | some c =>
    by_cases hc1 : c = 'T' ∨ c = 'U' ∨ c = 'V' ∨ c = 'W'
    · rw [show stepTag (setPGid p g) t = parse_draw (setPGid p g) t from by
        simp [stepTag, h1, h2, h3, h4, h5, h6, h7, h8, h9, h10, hhead, hc1]]
      rw [show stepTag p t = parse_draw p t from by
        simp [stepTag, h1, h2, h3, h4, h5, h6, h7, h8, h9, h10, hhead, hc1]]
      exact parse_draw_gid p g t
    by_cases hc2 : c = 'D' ∨ c = 'E' ∨ c = 'F' ∨ c = 'G'
    · rw [show stepTag (setPGid p g) t = parse_discard (setPGid p g) t from by
        simp [stepTag, h1, h2, h3, h4, h5, h6, h7, h8, h9, h10, hhead, hc1, hc2]]
      rw [show stepTag p t = parse_discard p t from by
        simp [stepTag, h1, h2, h3, h4, h5, h6, h7, h8, h9, h10, hhead, hc1, hc2]]
      exact parse_discard_gid p g t
    · rw [show stepTag (setPGid p g) t = .ok (setPGid p g) from by
        simp [stepTag, h1, h2, h3, h4, h5, h6, h7, h8, h9, h10, hhead, hc1, hc2]]
      rw [show stepTag p t = .ok p from by
        simp [stepTag, h1, h2, h3, h4, h5, h6, h7, h8, h9, h10, hhead, hc1, hc2]]
      rfl

theorem runTags_gid (ts : List Tag) (p : MjlogParser) (g : String) :
    runTags (setPGid p g) ts = (runTags p ts).map (fun q => setPGid q g) := by
  induction ts generalizing p with
  | nil => rfl
  | cons t rest ih =>
    have hl : runTags (setPGid p g) (t :: rest) =
        (match stepTag (setPGid p g) t with
          | .ok p' => runTags p' rest
          | .error e => .error e) := rfl
    have hr : runTags p (t :: rest) =
        (match stepTag p t with
          | .ok p' => runTags p' rest
          | .error e => .error e) := rfl
    rw [hl, hr, stepTag_gid]
    cases stepTag p t with
    | error e => rfl
    | ok p1 =>
      dsimp only [Except.map]
      exact ih _

theorem runTags_game_id {ts : List Tag} {p q : MjlogParser}
    (h : runTags p ts = .ok q) : q.game_id = p.game_id := by
  induction ts generalizing p with
  | nil =>
    simp only [runTags, Except.ok.injEq] at h
    subst h
    rfl
  | cons t rest ih =>
    unfold runTags at h
    cases hs : stepTag p t with
    | error e => rw [hs] at h; simp at h
    | ok p1 =>
      rw [hs] at h
      dsimp only at h
      by_cases hn : t.name = "INIT"
      · obtain ⟨-, -, -, hg⟩ := stepTag_ok_init hn hs
        rw [ih h, hg]
      · obtain ⟨-, -, hg, -⟩ := stepTag_ok_nonInit hn hs
        rw [ih h, hg]

theorem parse_mjlog_gid_map (g1 g2 : String) (ts : List Tag) :
    parse_mjlog g1 ts = (parse_mjlog g2 ts).map (fun o => setOutGid o g1) := by
  have hnew : MjlogParser.new g1 = setPGid (MjlogParser.new g2) g1 := rfl
  unfold parse_mjlog MjlogParser.run
  rw [hnew, runTags_gid]
  cases runTags (MjlogParser.new g2) ts with
  | error e => rfl
  | ok q => rfl

theorem parse_mjlog_gid_value {gid : String} {ts : List Tag} {o : ParserOutput}
    (h : parse_mjlog gid ts = .ok o) : o.game_id = gid := by
  obtain ⟨q, hr, rfl⟩ := parse_mjlog_ok_elim h
  have := runTags_game_id hr
  simpa [into_output, sealRounds, MjlogParser.new] using this

/-- C10: for a fixed tag stream, two runs of the parser that differ only in
the freshly generated UUID agree on every field of the result except
`gameId` (including agreeing on whether they fail, with the same error),
and on success the `gameId` field is exactly the generated UUID — so every
output field other than `gameId` is a deterministic function of the
input. -/
theorem parse_mjlog_deterministic_mod_gameId (g1 g2 : String) (ts : List Tag) :
    parse_mjlog g1 ts = (parse_mjlog g2 ts).map (fun o => setOutGid o g1) ∧
    (∀ o, parse_mjlog g1 ts = .ok o → o.game_id = g1) :=
  ⟨parse_mjlog_gid_map g1 g2 ts, fun _ h => parse_mjlog_gid_value h⟩

/-- Witness for C10 at a concrete record and two concrete UUIDs. -/
theorem parse_mjlog_deterministic_mod_gameId_witness :
    (parse_mjlog "a" [sampleInitTag] =
      (parse_mjlog "b" [sampleInitTag]).map (fun o => setOutGid o "a")) ∧
    (⟨"", "a", ⟨0, none⟩, [],
      [⟨"Round 1", 0,
        ⟨0, 0, 0, (1, 2), 52, [250, 250, 250, 250],
          [["1m", "2m"], ["1m", "2m"], ["1m", "2m"], ["1m", "2m"]]⟩, []⟩]⟩ :
        ParserOutput).game_id = "a" :=
  ⟨(parse_mjlog_deterministic_mod_gameId "a" "b" [sampleInitTag]).1,
    (parse_mjlog_deterministic_mod_gameId "a" "b" [sampleInitTag]).2 _ (by rfl)⟩

end TenhouLog
